import Mathlib

/-!
# Verification of the instaroom generation pipeline

Shallow embedding of the deterministic parts of the instaroom backend
(`backend/app/services/...`) together with proofs about the claims of the
specification.  External model calls are modelled as explicit outcome
parameters; machine floats are modelled as exact rationals.
-/

namespace Instaroom

/-! ## Placement matching (`vlm/prompt.py`: `_tokenize`, `_placement_matches_objects`) -/

/-- Separator characters of the tokenizer regex `[\s_\-]+`:
whitespace (space, tab, newline, carriage return, vertical tab, form feed),
underscore and hyphen. -/
def isSepChar (c : Char) : Bool :=
  c = ' ' || c = '\t' || c = '\n' || c = '\r' || c = '\x0b' || c = '\x0c' ||
    c = '_' || c = '-'

/-- Whitespace characters removed by `str.strip()`. -/
def isStripChar (c : Char) : Bool :=
  c = ' ' || c = '\t' || c = '\n' || c = '\r' || c = '\x0b' || c = '\x0c'

/-- Split a character list into maximal runs of non-separator characters.
`cur` holds the current (reversed) run. -/
def tokenizeAux : List Char → List Char → List (List Char)
  | [], cur => if cur = [] then [] else [cur.reverse]
  | c :: rest, cur =>
    if isSepChar c then
      if cur = [] then tokenizeAux rest []
      else cur.reverse :: tokenizeAux rest []
    else tokenizeAux rest (c :: cur)

/-- Model of `_tokenize`: split a name into word tokens by underscores, hyphens and
whitespace, dropping empty tokens. -/
def tokenize (s : String) : List String :=
  (tokenizeAux s.toList []).map fun l => String.mk l

/-- The part of a string before the first colon (`s.split(":")[0]`). -/
def takeUntilColon : List Char → List Char
  | [] => []
  | c :: rest => if c = ':' then [] else c :: takeUntilColon rest

/-- Python `str.strip()`: drop whitespace from both ends. -/
def stripEnds (l : List Char) : List Char :=
  ((l.dropWhile isStripChar).reverse.dropWhile isStripChar).reverse

/-- Lower-case a string character by character (`str.lower()` for ASCII). -/
def lowerStr (s : String) : String :=
  String.mk (s.toList.map Char.toLower)

/-- The leading name of a placement entry:
`placement.split(":")[0].strip().lower()`. -/
def placementLeadName (placement : String) : String :=
  String.mk ((stripEnds (takeUntilColon placement.toList)).map Char.toLower)

/-- Model of `_placement_matches_objects`: does an object-placement string match any of
the given object names?  Accepts an exact case-insensitive match of the leading
name, or a word-token overlap strictly above half of the shorter token set. -/
def placement_matches_objects (placement : String) (names : List String) : Bool :=
  let lead := placementLeadName placement
  let leadTokens : Finset String := (tokenize lead).toFinset
  names.any fun name =>
    let nameLower := lowerStr name
    if lead = nameLower then true
    else
      let nameTokens : Finset String := (tokenize nameLower).toFinset
      let overlap := leadTokens ∩ nameTokens
      let shorter := min leadTokens.card nameTokens.card
      decide (0 < shorter) && decide (shorter < 2 * overlap.card)

/-- The matching rule for one candidate name, as worded by the specification:
exact case-insensitive equality of the placement's leading name with the
object name, or more than half of the tokens of the shorter token set shared. -/
def placementMatchRule (placement : String) (name : String) : Prop :=
  placementLeadName placement = lowerStr name ∨
    (0 < min ((tokenize (placementLeadName placement)).toFinset.card)
          ((tokenize (lowerStr name)).toFinset.card) ∧
      min ((tokenize (placementLeadName placement)).toFinset.card)
          ((tokenize (lowerStr name)).toFinset.card) <
        2 * ((tokenize (placementLeadName placement)).toFinset ∩
              (tokenize (lowerStr name)).toFinset).card)

instance (placement name : String) : Decidable (placementMatchRule placement name) := by
  unfold placementMatchRule; infer_instance

/-! ## Data model (`models.py`), restricted to the fields the claims use.
Machine floats are modelled as exact rationals. -/

/-- Model of `ScoredObject` (stage 2 output, the profile's key objects). -/
structure ScoredObject where
  name : String
  importance : ℚ := 0
  description : String := ""
  source_image_url : String := ""
deriving DecidableEq, Repr

/-- Model of `RoomAtmosphere`. -/
structure RoomAtmosphere where
  dominant_mood : String := ""
  dominant_lighting : String := ""
  color_palette : List String := []
  style : String := ""
  window_view : String := ""
  room_size : String := "medium"
  time_of_day : String := "afternoon"
deriving DecidableEq, Repr

/-- Model of `AggregatedProfile`. -/
structure AggregatedProfile where
  persona_summary : String := ""
  key_objects : List ScoredObject := []
  atmosphere : RoomAtmosphere := {}
  hashtag_themes : List String := []
deriving DecidableEq, Repr

/-- Model of `_FullRoomLayoutResponse` (the Layout Planner's parsed output). -/
structure FullRoomLayoutResponse where
  room_shape : String := ""
  window_placement : String := ""
  furniture : List String := []
  object_placements : List String := []
  visual_flow : String := ""
  camera_position : String := ""
  camera_direction_forward : String := ""
  camera_direction_backward : String := ""
  forward_objects : List String := []
  backward_objects : List String := []
deriving DecidableEq, Repr

/-! ## Dual-view split repair (`vlm/prompt.py`: `_design_dual_view`, lines 159-180)

`_design_dual_view` first repairs the layout's object split and then only reads
the two lists (they flow unchanged into `_ViewLayout`, the shared `LayoutPlan`
and both prompts), so the repair is the part of the function the split claims
are about. -/

/-- Elements at even indices (`lst[0::2]`). -/
def everyOtherEven {α : Type} : List α → List α
  | [] => []
  | [x] => [x]
  | x :: _ :: rest => x :: everyOtherEven rest

/-- Elements at odd indices (`lst[1::2]`). -/
def everyOtherOdd {α : Type} : List α → List α
  | [] => []
  | _ :: rest => everyOtherEven rest

/-- Model of `len(lst) // 2 or 1`: the floor half of the length, with `0` replaced by `1`. -/
def halfOrOne (n : Nat) : Nat :=
  if n / 2 = 0 then 1 else n / 2

/-- The repair of the forward/backward object split in `_design_dual_view`:
if both lists are empty, split the ranked key-object names by alternating rank;
if exactly one list is empty, move elements of the non-empty one so that its
first `halfOrOne` elements are the forward list; otherwise pass through. -/
def design_dual_view_split (profile : AggregatedProfile)
    (layout : FullRoomLayoutResponse) : FullRoomLayoutResponse :=
  if layout.forward_objects = [] ∧ layout.backward_objects = [] then
    let all_names := profile.key_objects.map (·.name)
    { layout with
        forward_objects := everyOtherEven all_names
        backward_objects := everyOtherOdd all_names }
  else if layout.forward_objects = [] then
    let half := halfOrOne layout.backward_objects.length
    { layout with
        forward_objects := layout.backward_objects.take half
        backward_objects := layout.backward_objects.drop half }
  else if layout.backward_objects = [] then
    let half := halfOrOne layout.forward_objects.length
    { layout with
        backward_objects := layout.forward_objects.drop half
        forward_objects := layout.forward_objects.take half }
  else
    layout

/-- The object-list normalization in `_design_single_view` (lines 107-109):
all key objects land in the forward view if the layout assigned none, and the
backward list is forced empty. -/
def design_single_view_split (profile : AggregatedProfile)
    (layout : FullRoomLayoutResponse) : FullRoomLayoutResponse :=
  let layout1 :=
    if layout.forward_objects = [] then
      { layout with forward_objects := profile.key_objects.map (·.name) }
    else layout
  { layout1 with backward_objects := [] }

theorem everyOtherEven_cons {α : Type} (y : α) (rest : List α) :
    everyOtherEven (y :: rest) = y :: everyOtherOdd rest := by
  cases rest <;> simp [everyOtherEven, everyOtherOdd]

theorem everyOther_perm {α : Type} : ∀ l : List α,
    (everyOtherEven l ++ everyOtherOdd l).Perm l
  | [] => by simp [everyOtherEven, everyOtherOdd]
  | x :: rest => by
    have ih := everyOther_perm rest
    rw [everyOtherEven_cons]
    simp only [everyOtherOdd, List.cons_append]
    refine List.Perm.cons x ?_
    exact (List.perm_append_comm).trans ih

/-- The function `halfOrOne` is the floor half with a minimum of one. -/
theorem halfOrOne_eq_max (n : Nat) : halfOrOne n = max 1 (n / 2) := by
  unfold halfOrOne
  rcases Nat.eq_zero_or_pos (n / 2) with h | h
  · simp [h]
  · rw [if_neg (Nat.pos_iff_ne_zero.mp h), Nat.max_eq_right h]

/-- Concrete profile for the C1 counterexample: two key objects. -/
def profileC1 : AggregatedProfile :=
  { key_objects := [{ name := "guitar" }, { name := "plant" }] }

/-- Concrete layout for the C1 counterexample: both lists non-empty but
overlapping and not covering the key-object set, so no repair branch fires. -/
def layoutC1 : FullRoomLayoutResponse :=
  { forward_objects := ["guitar"], backward_objects := ["guitar"] }

/-- C1 counterexample: when the Layout Planner returns two non-empty lists the
repair passes them through unchanged, so they need not be disjoint and their
union need not equal the full key-object name set. -/
theorem C1_counterexample :
    ¬ ((design_dual_view_split profileC1 layoutC1).forward_objects.toFinset ∩
          (design_dual_view_split profileC1 layoutC1).backward_objects.toFinset = ∅ ∧
        (design_dual_view_split profileC1 layoutC1).forward_objects.toFinset ∪
          (design_dual_view_split profileC1 layoutC1).backward_objects.toFinset =
          (profileC1.key_objects.map ScoredObject.name).toFinset) := by
  decide

/-- C1 (amended): the repair fires only when an assignment list is empty.
When both are empty the alternating split is a partition of the full
key-object name set (for distinct key-object names); when exactly one is
empty the two repaired lists concatenate to the originally non-empty one;
when both are non-empty the layout passes through unchanged, so the
disjointness/coverage invariant holds only if the upstream call satisfied it. -/
theorem C1_dual_split_amended (profile : AggregatedProfile)
    (layout : FullRoomLayoutResponse) :
    (layout.forward_objects = [] → layout.backward_objects = [] →
      (profile.key_objects.map ScoredObject.name).Nodup →
      (design_dual_view_split profile layout).forward_objects.toFinset ∩
          (design_dual_view_split profile layout).backward_objects.toFinset = ∅ ∧
        (design_dual_view_split profile layout).forward_objects.toFinset ∪
          (design_dual_view_split profile layout).backward_objects.toFinset =
          (profile.key_objects.map ScoredObject.name).toFinset) ∧
    (layout.forward_objects = [] → layout.backward_objects ≠ [] →
      (design_dual_view_split profile layout).forward_objects ++
        (design_dual_view_split profile layout).backward_objects =
        layout.backward_objects) ∧
    (layout.backward_objects = [] → layout.forward_objects ≠ [] →
      (design_dual_view_split profile layout).forward_objects ++
        (design_dual_view_split profile layout).backward_objects =
        layout.forward_objects) ∧
    (layout.forward_objects ≠ [] → layout.backward_objects ≠ [] →
      design_dual_view_split profile layout = layout) := by
  refine ⟨?_, ?_, ?_, ?_⟩
  · intro h1 h2 hnd
    simp only [design_dual_view_split, h1, h2, and_self, if_true]
    set names := profile.key_objects.map ScoredObject.name with hn
    have hperm := everyOther_perm (l := names)
    have hnd2 : (everyOtherEven names ++ everyOtherOdd names).Nodup :=
      hperm.nodup_iff.mpr hnd
    have hdisj : (everyOtherEven names).Disjoint (everyOtherOdd names) :=
      List.disjoint_of_nodup_append hnd2
    constructor
    · ext x
      simp only [Finset.mem_inter, List.mem_toFinset, Finset.not_mem_empty,
        iff_false, not_and]
      exact fun hx hy => hdisj hx hy
    · rw [← List.toFinset_append]
      exact List.toFinset_eq_of_perm _ _ hperm
  · intro h1 h2
    simp only [design_dual_view_split, h1, h2, true_and, and_false, if_false,
      if_true, List.take_append_drop]
  · intro h1 h2
    simp only [design_dual_view_split, h1, h2, and_true, false_and, if_false,
      if_true, List.take_append_drop]
  · intro h1 h2
    simp only [design_dual_view_split, h1, h2, false_and, and_false, if_false]

/-- C1 witness: the amended theorem applied to a concrete profile with three
distinct key objects and a layout with two empty lists. -/
theorem C1_witness :
    (design_dual_view_split
        { key_objects := [{ name := "a" }, { name := "b" }, { name := "c" }] }
        {}).forward_objects.toFinset ∩
      (design_dual_view_split
        { key_objects := [{ name := "a" }, { name := "b" }, { name := "c" }] }
        {}).backward_objects.toFinset = ∅ ∧
    (design_dual_view_split
        { key_objects := [{ name := "a" }, { name := "b" }, { name := "c" }] }
        {}).forward_objects.toFinset ∪
      (design_dual_view_split
        { key_objects := [{ name := "a" }, { name := "b" }, { name := "c" }] }
        {}).backward_objects.toFinset =
      ((AggregatedProfile.key_objects
        { key_objects := [{ name := "a" }, { name := "b" }, { name := "c" }] }).map
          ScoredObject.name).toFinset :=
  (C1_dual_split_amended
    { key_objects := [{ name := "a" }, { name := "b" }, { name := "c" }] } {}).1
    rfl rfl (by decide)

/-- Concrete layout for the C3 counterexample: empty forward list and three
backward objects. -/
def layoutC3 : FullRoomLayoutResponse :=
  { forward_objects := [], backward_objects := ["rug", "lamp", "desk"] }

/-- C3 counterexample: with an odd non-empty list of length 3, the repair moves
`3 / 2 = 1` element, not the claimed `ceil(3/2) = 2`. -/
theorem C3_counterexample :
    (design_dual_view_split {} layoutC3).forward_objects ≠
      layoutC3.backward_objects.take
        ((layoutC3.backward_objects.length + 1) / 2) := by
  decide

/-- C3 (amended): when exactly one list is empty and the other has `n ≥ 1`
elements, the repair splits the non-empty list at `max 1 (n / 2)` (the floor
half, minimum one): the prefix becomes (or stays) the forward list and the
suffix the backward list, preserving order. -/
theorem C3_one_empty_repair (profile : AggregatedProfile)
    (layout : FullRoomLayoutResponse) :
    (layout.forward_objects = [] → layout.backward_objects ≠ [] →
      (design_dual_view_split profile layout).forward_objects =
        layout.backward_objects.take
          (max 1 (layout.backward_objects.length / 2)) ∧
      (design_dual_view_split profile layout).backward_objects =
        layout.backward_objects.drop
          (max 1 (layout.backward_objects.length / 2))) ∧
    (layout.backward_objects = [] → layout.forward_objects ≠ [] →
      (design_dual_view_split profile layout).forward_objects =
        layout.forward_objects.take
          (max 1 (layout.forward_objects.length / 2)) ∧
      (design_dual_view_split profile layout).backward_objects =
        layout.forward_objects.drop
          (max 1 (layout.forward_objects.length / 2))) := by
  constructor
  · intro h1 h2
    simp only [design_dual_view_split, h1, h2, true_and, and_false, if_false,
      if_true, halfOrOne_eq_max]
  · intro h1 h2
    simp only [design_dual_view_split, h1, h2, and_true, false_and, if_false,
      if_true, halfOrOne_eq_max]

/-- Concrete layout for the C3 witness: empty forward list, six backward
objects. -/
def layoutC3w : FullRoomLayoutResponse :=
  { forward_objects := []
    backward_objects := ["o1", "o2", "o3", "o4", "o5", "o6"] }

/-- C3 witness: the spec's scenario — six backward objects are rebalanced into
forward = first three, backward = remaining three. -/
theorem C3_witness :
    (design_dual_view_split {} layoutC3w).forward_objects = ["o1", "o2", "o3"] ∧
    (design_dual_view_split {} layoutC3w).backward_objects = ["o4", "o5", "o6"] := by
  have h := (C3_one_empty_repair {} layoutC3w).1 rfl (by decide)
  rw [h.1, h.2]
  decide

/-- C10: in single-view mode the backward list is always forced empty; if the
layout call assigned no forward objects, every key-object name of the profile
is assigned to the forward view, which is then non-empty whenever the profile
has at least one key object. -/
theorem C10_single_view (profile : AggregatedProfile)
    (layout : FullRoomLayoutResponse) :
    (design_single_view_split profile layout).backward_objects = [] ∧
    (layout.forward_objects = [] →
      (design_single_view_split profile layout).forward_objects =
        profile.key_objects.map ScoredObject.name) ∧
    (layout.forward_objects = [] → profile.key_objects ≠ [] →
      (design_single_view_split profile layout).forward_objects ≠ [] ∧
      ∀ o ∈ profile.key_objects,
        o.name ∈ (design_single_view_split profile layout).forward_objects) := by
  refine ⟨rfl, ?_, ?_⟩
  · intro h1
    simp [design_single_view_split, h1]
  · intro h1 h2
    simp only [design_single_view_split, h1, if_true]
    constructor
    · simpa using h2
    · intro o ho
      simp only [List.mem_map]
      exact ⟨o, ho, rfl⟩

/-- C10 witness: a profile with one key object and a layout that assigned
none gets that object in the forward view. -/
theorem C10_witness :
    (design_single_view_split { key_objects := [{ name := "guitar" }] }
        {}).forward_objects ≠ [] ∧
    ∀ o ∈ AggregatedProfile.key_objects { key_objects := [{ name := "guitar" }] },
      o.name ∈ (design_single_view_split { key_objects := [{ name := "guitar" }] }
        {}).forward_objects :=
  (C10_single_view { key_objects := [{ name := "guitar" }] } {}).2.2 rfl (by decide)

theorem placement_matches_objects_iff (placement : String) (names : List String) :
    placement_matches_objects placement names = true ↔
      ∃ name ∈ names, placementMatchRule placement name := by
  unfold placement_matches_objects placementMatchRule
  simp only [List.any_eq_true]
  constructor
  · rintro ⟨name, hmem, hname⟩
    refine ⟨name, hmem, ?_⟩
    by_cases h : placementLeadName placement = lowerStr name
    · exact Or.inl h
    · simp only [h, if_false, Bool.and_eq_true, decide_eq_true_eq] at hname
      exact Or.inr hname
  · rintro ⟨name, hmem, hname⟩
    refine ⟨name, hmem, ?_⟩
    by_cases h : placementLeadName placement = lowerStr name
    · simp [h]
    · rcases hname with h1 | h2
      · exact absurd h1 h
      · simp only [h, if_false, Bool.and_eq_true, decide_eq_true_eq]
        exact h2

/-! ## Critique-retry loop (`image_gen/generate.py`: `_generate_single_view`)

The image-generation chat turn and the critique call are external; one
viewpoint session is driven by a function `turns` giving, per attempt number,
the image the chat turn yields (`none`, or a possibly-empty base64 string) and
the scores the critique call would yield for it (`none` when the critique call
fails).  `_build_refinement_message` is pure string construction whose content
the loop never inspects; it is passed in as `refine_message`. -/

/-- Model of `CritiqueScores` (four 1-4 integer sub-scores with feedback). -/
structure CritiqueScores where
  object_presence : ℤ := 3
  object_presence_feedback : String := ""
  atmosphere_match : ℤ := 3
  atmosphere_match_feedback : String := ""
  spatial_coherence : ℤ := 3
  spatial_coherence_feedback : String := ""
  overall_quality : ℤ := 3
  overall_quality_feedback : String := ""
deriving DecidableEq, Repr

/-- The derived average score. -/
def CritiqueScores.avg_score (c : CritiqueScores) : ℚ :=
  ((c.object_presence : ℚ) + (c.atmosphere_match : ℚ) +
    (c.spatial_coherence : ℚ) + (c.overall_quality : ℚ)) / 4

/-- Model of `GenerationAttempt`. -/
structure GenerationAttempt where
  attempt_number : ℕ
  image_base64 : String := ""
  critique : Option CritiqueScores := none
  prompt_used : String := ""
deriving DecidableEq, Repr

/-- Model of `ImageGenResult`. -/
structure ImageGenResult where
  final_image_base64 : String := ""
  final_critique : Option CritiqueScores := none
  attempts : List GenerationAttempt := []
  total_attempts : ℕ := 0
deriving DecidableEq, Repr

/-- What the external services yield for one attempt: the chat turn's image
(`none` models a raised or imageless call) and the critique scores the critique
call would produce for that image (`none` models a failed critique call). -/
structure GenTurn where
  image : Option String := none
  critique : Option CritiqueScores := none
deriving DecidableEq, Repr

/-- Model of `if not image_b64:` — the generation failed if the chat turn yields `None`
or an empty (falsy) string. -/
def imageFailed : Option String → Bool
  | none => true
  | some s => s == ""

/-- Model of `_CRITIQUE_THRESHOLD = 3.5`. -/
def CRITIQUE_THRESHOLD : ℚ := 7 / 2

/-- Model of `_MAX_ATTEMPTS = 2`. -/
def MAX_ATTEMPTS : ℕ := 2

/-- The `for attempt_num in range(1, _MAX_ATTEMPTS + 1)` loop of
`_generate_single_view`, recursing over the list of remaining attempt numbers
and carrying the accumulated attempts and the current best attempt. -/
def generate_view_loop (turns : ℕ → GenTurn) (final_prompt : String)
    (refine_message : Option CritiqueScores → String) :
    List ℕ → List GenerationAttempt → Option GenerationAttempt →
    List GenerationAttempt × Option GenerationAttempt
  | [], attempts, best => (attempts, best)
  | attempt_num :: rest, attempts, best =>
    let prompt_text :=
      if attempt_num = 1 then final_prompt
      else refine_message (best.bind GenerationAttempt.critique)
    let turn := turns attempt_num
    if imageFailed turn.image then
      generate_view_loop turns final_prompt refine_message rest
        (attempts ++ [{ attempt_number := attempt_num, prompt_used := prompt_text }])
        best
    else
      let attempt : GenerationAttempt :=
        { attempt_number := attempt_num
          image_base64 := turn.image.getD ""
          critique := turn.critique
          prompt_used := prompt_text }
      let attempts2 := attempts ++ [attempt]
      let best2 :=
        match best with
        | none => some attempt
        | some b =>
          match turn.critique with
          | none => some b
          | some c =>
            match b.critique with
            | none => some attempt
            | some bc =>
              if bc.avg_score < c.avg_score then some attempt else some b
      match turn.critique with
      | none => (attempts2, best2)
      | some c =>
        if CRITIQUE_THRESHOLD ≤ c.avg_score then (attempts2, best2)
        else
          generate_view_loop turns final_prompt refine_message rest attempts2 best2

/-- Model of `_generate_single_view`: run the bounded critique-retry loop and package
the best attempt (falling back to the last attempt when no attempt produced
an image). -/
def generate_single_view (turns : ℕ → GenTurn) (final_prompt : String)
    (refine_message : Option CritiqueScores → String) : ImageGenResult :=
  let res := generate_view_loop turns final_prompt refine_message
    (List.range' 1 MAX_ATTEMPTS) [] none
  let bestA :=
    match res.2 with
    | some b => b
    | none => res.1.getLastD { attempt_number := 0 }
  { final_image_base64 := bestA.image_base64
    final_critique := bestA.critique
    attempts := res.1
    total_attempts := res.1.length }

theorem generate_view_loop_length (turns : ℕ → GenTurn) (final_prompt : String)
    (refine_message : Option CritiqueScores → String) :
    ∀ (nums : List ℕ) (attempts : List GenerationAttempt)
      (best : Option GenerationAttempt),
      (generate_view_loop turns final_prompt refine_message nums attempts
          best).1.length ≤ attempts.length + nums.length
  | [], attempts, best => by simp [generate_view_loop]
  | attempt_num :: rest, attempts, best => by
    simp only [generate_view_loop]
    split
    · refine le_trans
        (generate_view_loop_length turns final_prompt refine_message rest _ best) ?_
      simp only [List.length_append, List.length_cons, List.length_nil]
      omega
    · split
      · simp only [List.length_append, List.length_cons, List.length_nil]
        omega
      · split
        · simp only [List.length_append, List.length_cons, List.length_nil]
          omega
        · refine le_trans
            (generate_view_loop_length turns final_prompt refine_message rest _ _) ?_
          simp only [List.length_append, List.length_cons, List.length_nil]
          omega

/-- C2: the critique-retry loop makes at most `MAX_ATTEMPTS = 2` attempts per
viewpoint; a first attempt whose critique succeeds with average score at least
3.5 ends the session immediately (one attempt); a first attempt whose critique
call fails also ends the session immediately, that attempt being accepted as
final. -/
theorem C2_critique_retry_loop (turns : ℕ → GenTurn) (final_prompt : String)
    (refine_message : Option CritiqueScores → String) :
    (generate_single_view turns final_prompt refine_message).attempts.length ≤
        MAX_ATTEMPTS ∧
    (generate_single_view turns final_prompt refine_message).total_attempts =
      (generate_single_view turns final_prompt refine_message).attempts.length ∧
    (∀ img c, turns 1 = { image := some img, critique := some c } → img ≠ "" →
      CRITIQUE_THRESHOLD ≤ c.avg_score →
      (generate_single_view turns final_prompt refine_message).attempts.length = 1) ∧
    (∀ img, turns 1 = { image := some img, critique := none } → img ≠ "" →
      (generate_single_view turns final_prompt refine_message).attempts.length = 1 ∧
      (generate_single_view turns final_prompt
          refine_message).final_image_base64 = img ∧
      (generate_single_view turns final_prompt
          refine_message).final_critique = none) := by
  have hr : List.range' 1 MAX_ATTEMPTS = [1, 2] := rfl
  refine ⟨?_, rfl, ?_, ?_⟩
  · have h := generate_view_loop_length turns final_prompt refine_message
      (List.range' 1 MAX_ATTEMPTS) [] none
    simpa [generate_single_view, List.length_range'] using h
  · intro img c ht1 himg hc
    have hif : imageFailed (some img) = false := by
      simp [imageFailed, himg]
    simp [generate_single_view, hr, generate_view_loop, ht1, hif, hc]
  · intro img ht1 himg
    have hif : imageFailed (some img) = false := by
      simp [imageFailed, himg]
    refine ⟨?_, ?_, ?_⟩ <;>
      simp [generate_single_view, hr, generate_view_loop, ht1, hif]

/-- Concrete turn outcomes for the C2 witness: the first attempt yields an
image whose critique scores all four dimensions at 4. -/
def critiqueAll4 : CritiqueScores :=
  { object_presence := 4
    atmosphere_match := 4
    spatial_coherence := 4
    overall_quality := 4 }

def turnsC2 : ℕ → GenTurn := fun _ =>
  { image := some "img-a", critique := some critiqueAll4 }

/-- C2 witness: with a first attempt scoring an average of 4 ≥ 3.5, the
session is one attempt long. -/
theorem C2_witness :
    (generate_single_view turnsC2 "prompt" (fun _ => "refine")).attempts.length = 1 :=
  (C2_critique_retry_loop turnsC2 "prompt" (fun _ => "refine")).2.2.1 "img-a"
    critiqueAll4 rfl (by decide)
    (by norm_num [critiqueAll4, CritiqueScores.avg_score, CRITIQUE_THRESHOLD])

/-- The claim's replacement rule for "best attempt" tracking: a later attempt
replaces the current best only if it has a critique and either the current
best has none or the later average score is strictly higher. -/
def claimReplace (cur b : GenerationAttempt) : Bool :=
  match b.critique with
  | none => false
  | some c =>
    match cur.critique with
    | none => true
    | some bc => decide (bc.avg_score < c.avg_score)

/-- Modelled from the claim's words: the first attempt is always the initial
candidate and the replacement rule folds over all later attempts. -/
def claim_best : List GenerationAttempt → Option GenerationAttempt
  | [] => none
  | a :: rest =>
    some (rest.foldl (fun cur b => if claimReplace cur b then b else cur) a)

/-- The best-selection rule the code implements: only image-producing attempts
are candidates, the first of them is the initial candidate and the claim's
replacement rule folds over the later ones; when no attempt produced an image,
the last attempt is returned. -/
def code_best (attempts : List GenerationAttempt) : Option GenerationAttempt :=
  match attempts.filter (fun a => !(a.image_base64 == "")) with
  | [] => attempts.getLast?
  | a :: rest =>
    some (rest.foldl (fun cur b => if claimReplace cur b then b else cur) a)

/-- Concrete turn outcomes for the C6 counterexample: the first attempt yields
no image, the second yields an image whose critique call fails. -/
def turnsC6 : ℕ → GenTurn := fun n =>
  if n = 1 then {} else { image := some "img-b" }

/-- C6 counterexample: under the claim's rule the first attempt (imageless, no
critique) would remain the best, since the second attempt has no critique; the
code instead returns the second attempt's image. -/
theorem C6_counterexample :
    ¬ ((claim_best (generate_single_view turnsC6 "prompt-b"
          (fun _ => "refine-b")).attempts).map
            (fun b => (b.image_base64, b.critique)) =
        some ((generate_single_view turnsC6 "prompt-b"
            (fun _ => "refine-b")).final_image_base64,
          (generate_single_view turnsC6 "prompt-b"
            (fun _ => "refine-b")).final_critique)) := by
  decide

theorem imageFailed_false {o : Option String} (h : imageFailed o = false) :
    o = some (o.getD "") ∧ ((o.getD "" == "") = false) := by
  cases o with
  | none => simp [imageFailed] at h
  | some s => simpa [imageFailed] using h

/-- C6 (amended): the best attempt the session returns (observed through the
result's final image and critique) is selected by the claim's replacement rule
restricted to image-producing attempts, with the first image-producing attempt
as initial candidate; when no attempt produced an image, the last attempt is
returned. -/
theorem C6_best_tracking_amended (turns : ℕ → GenTurn) (final_prompt : String)
    (refine_message : Option CritiqueScores → String) :
    (code_best (generate_single_view turns final_prompt
          refine_message).attempts).map
        (fun b => (b.image_base64, b.critique)) =
      some ((generate_single_view turns final_prompt
          refine_message).final_image_base64,
        (generate_single_view turns final_prompt
          refine_message).final_critique) := by
  have hr : List.range' 1 MAX_ATTEMPTS = [1, 2] := rfl
  rcases ht1 : turns 1 with ⟨i1, c1⟩
  by_cases hf1 : imageFailed i1 = true
  · rcases ht2 : turns 2 with ⟨i2, c2⟩
    by_cases hf2 : imageFailed i2 = true
    · simp [generate_single_view, hr, generate_view_loop, ht1, ht2, hf1, hf2,
        code_best, List.getLast?]
    · rw [Bool.not_eq_true] at hf2
      obtain ⟨hi2, hne2⟩ := imageFailed_false hf2
      rcases c2 with _ | c
      · simp [generate_single_view, hr, generate_view_loop, ht1, ht2, hf1, hf2,
          code_best, hne2]
      · by_cases hth : CRITIQUE_THRESHOLD ≤ c.avg_score
        · simp [generate_single_view, hr, generate_view_loop, ht1, ht2, hf1,
            hf2, hth, code_best, hne2]
        · simp [generate_single_view, hr, generate_view_loop, ht1, ht2, hf1,
            hf2, hth, code_best, hne2]
  · rw [Bool.not_eq_true] at hf1
    obtain ⟨hi1, hne1⟩ := imageFailed_false hf1
    rcases c1 with _ | c
    · simp [generate_single_view, hr, generate_view_loop, ht1, hf1, code_best,
        hne1]
    · by_cases hth : CRITIQUE_THRESHOLD ≤ c.avg_score
      · simp [generate_single_view, hr, generate_view_loop, ht1, hf1, hth,
          code_best, hne1]
      · rcases ht2 : turns 2 with ⟨i2, c2⟩
        by_cases hf2 : imageFailed i2 = true
        · simp [generate_single_view, hr, generate_view_loop, ht1, ht2, hf1,
            hf2, hth, code_best, hne1]
        · rw [Bool.not_eq_true] at hf2
          obtain ⟨hi2, hne2⟩ := imageFailed_false hf2
          rcases c2 with _ | c2v
          · simp [generate_single_view, hr, generate_view_loop, ht1, ht2, hf1,
              hf2, hth, code_best, claimReplace, hne1, hne2]
          · by_cases hlt : c.avg_score < c2v.avg_score
            · by_cases hth2 : CRITIQUE_THRESHOLD ≤ c2v.avg_score <;>
                simp [generate_single_view, hr, generate_view_loop, ht1, ht2,
                  hf1, hf2, hth, hth2, hlt, code_best, claimReplace, hne1, hne2]
            · by_cases hth2 : CRITIQUE_THRESHOLD ≤ c2v.avg_score <;>
                simp [generate_single_view, hr, generate_view_loop, ht1, ht2,
                  hf1, hf2, hth, hth2, hlt, code_best, claimReplace, hne1, hne2]

/-! ## Stage 1/2 data model (`models.py`) -/

/-- Model of `Prominence`. -/
inductive Prominence
  | center
  | background
  | minor
deriving DecidableEq, Repr

/-- Model of `DetectedObject`. -/
structure DetectedObject where
  name : String
  prominence : Prominence
  description : String := ""
deriving DecidableEq, Repr

/-- Model of `SceneInfo`. -/
structure SceneInfo where
  location_type : String := ""
  mood : List String := []
  lighting : String := ""
  color_palette : List String := []
deriving DecidableEq, Repr

/-- Model of `PeopleInfo`. -/
structure PeopleInfo where
  count : ℤ := 0
  is_selfie : Bool := false
  activity : Option String := none
deriving DecidableEq, Repr

/-- Model of `PostAnalysis` (the emotional weight is validated to 1..5 by the schema). -/
structure PostAnalysis where
  objects : List DetectedObject := []
  scene : SceneInfo := {}
  people : PeopleInfo := {}
  emotional_weight : ℤ := 3
  frame_worthy : Bool := false
  frame_reason : String := ""
deriving DecidableEq, Repr

/-- Model of `PostAnalysisWithMeta`. -/
structure PostAnalysisWithMeta where
  analysis : PostAnalysis
  post_index : ℤ
  likes : ℤ := 0
  image_urls : List String := []
  caption : String := ""
  hashtags : List String := []
deriving DecidableEq, Repr

/-! ## Association lists modelling Python `dict` (insertion-ordered) -/

/-- Python `dict` lookup. -/
def alistGet {κ β : Type} [DecidableEq κ] : List (κ × β) → κ → Option β
  | [], _ => none
  | (k1, v1) :: rest, k => if k1 = k then some v1 else alistGet rest k

/-- Python `dict` assignment: update an existing key in place, append a new key. -/
def alistSet {κ β : Type} [DecidableEq κ] : List (κ × β) → κ → β → List (κ × β)
  | [], k, v => [(k, v)]
  | (k1, v1) :: rest, k, v =>
    if k1 = k then (k, v) :: rest else (k1, v1) :: alistSet rest k v

/-- First-occurrence deduplication, accumulating the names already seen. -/
def dedupFirstAux (seen : List String) : List String → List String
  | [] => []
  | x :: rest =>
    if x ∈ seen then dedupFirstAux seen rest
    else x :: dedupFirstAux (seen ++ [x]) rest

/-- The distinct elements of a list, in first-occurrence order. -/
def dedupFirst (l : List String) : List String := dedupFirstAux [] l

/-! ## Object Aggregator (`vlm/aggregation.py`)

The two external calls (object deduplication and persona synthesis) are
modelled by an explicit outcome value: the call can raise, return an empty
body, or return a parsed value. -/

/-- Outcome of one structured external-model call: the awaited call (or the
JSON validation of its body) raised, the response text was empty, or a value
was parsed. -/
inductive VlmOutcome (α : Type)
  | raised (msg : String)
  | empty
  | parsed (value : α)
deriving DecidableEq, Repr

/-- Model of `_DedupGroup`. -/
structure DedupGroup where
  canonical : String
  variants : List String
deriving DecidableEq, Repr

/-- Model of `_DedupResponse`. -/
structure DedupResponse where
  groups : List DedupGroup
deriving DecidableEq, Repr

/-- Model of `_AggregationVLMResponse`. -/
structure AggregationVLMResponse where
  persona_summary : String := ""
  style : String := ""
  window_view : String := ""
  time_of_day : String := ""
  hashtag_themes : List String := []
deriving DecidableEq, Repr

/-- Lexicographic code-point comparison of character lists (Python string
comparison). -/
def charListLt : List Char → List Char → Bool
  | [], [] => false
  | [], _ :: _ => true
  | _ :: _, [] => false
  | c1 :: r1, c2 :: r2 => if c1 = c2 then charListLt r1 r2 else decide (c1 < c2)

/-- Python `<` on strings: lexicographic by code point. -/
def strLt (a b : String) : Bool := charListLt a.toList b.toList

/-- Ascending insertion into a sorted list of strings (code-point order, as
Python string comparison). -/
def insertAsc (x : String) : List String → List String
  | [] => [x]
  | y :: ys => if strLt y x then y :: insertAsc x ys else x :: y :: ys

/-- Python `sorted(...)` over strings. -/
def sortStrings (l : List String) : List String :=
  l.foldl (fun acc x => insertAsc x acc) []

/-- Model of `_collect_object_names`: the sorted set of distinct raw object names. -/
def collect_object_names (analyses : List PostAnalysisWithMeta) : List String :=
  sortStrings (dedupFirst (analyses.foldl
    (fun acc a => acc ++ a.analysis.objects.map DetectedObject.name) []))

/-- The identity mapping `{n: n for n in names}`. -/
def identityMap (names : List String) : List (String × String) :=
  names.map fun n => (n, n)

/-- Model of `_deduplicate_objects`: with zero or one name no call is made and the
identity mapping is returned; an empty response falls back to the identity
mapping; a raised call propagates; a parsed response is folded into a
raw-name-to-canonical mapping, completed so every input name is mapped. -/
def deduplicate_objects (names : List String) (call : VlmOutcome DedupResponse) :
    Except String (List (String × String)) :=
  if names.length ≤ 1 then .ok (identityMap names)
  else
    match call with
    | .raised msg => .error msg
    | .empty => .ok (identityMap names)
    | .parsed dedup =>
      let mapping := dedup.groups.foldl
        (fun m g =>
          alistSet (g.variants.foldl (fun m2 v => alistSet m2 v g.canonical) m)
            g.canonical g.canonical)
        []
      .ok (names.foldl
        (fun m n => if alistGet m n = none then alistSet m n n else m) mapping)

/-- Model of `_PROMINENCE_SCORE` (the enum is total, so the `.get` default 0.2 is
unreachable). -/
def PROMINENCE_SCORE : Prominence → ℚ
  | .center => 1
  | .background => 1 / 2
  | .minor => 1 / 5

/-- The per-object accumulator of `_score_objects` (one `object_stats` value). -/
structure ObjStats where
  count : ℕ := 0
  prominences : List ℚ := []
  emotional_weights : List ℤ := []
  likes : List ℤ := []
  descriptions : List String := []
  best_prominence : ℚ := 0
  best_image_url : String := ""
deriving DecidableEq, Repr

/-- One iteration of the `_score_objects` accumulation loop body on the stats
of the canonical name of `obj` seen in post `a`. -/
def observe (a : PostAnalysisWithMeta) (obj : DetectedObject) (s : ObjStats) :
    ObjStats :=
  let prom_score := PROMINENCE_SCORE obj.prominence
  let s1 := { s with
    count := s.count + 1
    prominences := s.prominences ++ [prom_score]
    emotional_weights := s.emotional_weights ++ [a.analysis.emotional_weight]
    likes := s.likes ++ [a.likes] }
  let s2 :=
    if obj.description ≠ "" then
      { s1 with descriptions := s1.descriptions ++ [obj.description] }
    else s1
  if s.best_prominence < prom_score ∧ a.image_urls ≠ [] then
    { s2 with
        best_prominence := prom_score
        best_image_url := a.image_urls.headD "" }
  else s2

/-- The canonical name of a raw object name: `dedup_map.get(name, name)`. -/
def canonicalOf (dedup_map : List (String × String)) (name : String) : String :=
  (alistGet dedup_map name).getD name

/-- The `object_stats` dict built by the nested accumulation loops of
`_score_objects`. -/
def collect_stats (analyses : List PostAnalysisWithMeta)
    (dedup_map : List (String × String)) : List (String × ObjStats) :=
  analyses.foldl
    (fun m a =>
      a.analysis.objects.foldl
        (fun m2 obj =>
          let canonical := canonicalOf dedup_map obj.name
          alistSet m2 canonical (observe a obj ((alistGet m2 canonical).getD {})))
        m)
    []

/-- Maximum of a list of integers with a default for the empty list
(`max(gen, default=d)`). -/
def listMaxD (l : List ℤ) (d : ℤ) : ℤ :=
  match l with
  | [] => d
  | x :: xs => xs.foldl max x

/-- Maximum of a list of naturals with a default for the empty list. -/
def listMaxDNat (l : List ℕ) (d : ℕ) : ℕ :=
  match l with
  | [] => d
  | x :: xs => xs.foldl max x

/-- Model of `max((a.likes for a in analyses), default=1) or 1`. -/
def maxLikes (analyses : List PostAnalysisWithMeta) : ℤ :=
  let m := listMaxD (analyses.map PostAnalysisWithMeta.likes) 1
  if m = 0 then 1 else m

/-- Python `round(x, 4)` modelled on exact rationals. -/
def round4 (q : ℚ) : ℚ := ((round (q * 10000) : ℤ) : ℚ) / 10000

/-- The importance score computed from one object's accumulated stats. -/
def scoreOfStats (s : ObjStats) (max_count : ℕ) (max_likes : ℤ) : ℚ :=
  let freq : ℚ := (s.count : ℚ) / (max_count : ℚ)
  let avg_prom : ℚ := s.prominences.sum / (s.prominences.length : ℚ)
  let avg_emo : ℚ :=
    ((s.emotional_weights.sum : ℚ) / (s.emotional_weights.length : ℚ)) / 5
  let avg_likes : ℚ :=
    ((s.likes.sum : ℚ) / (s.likes.length : ℚ)) / (max_likes : ℚ)
  freq * (3 / 10) + avg_prom * (1 / 4) + avg_emo * (1 / 4) + avg_likes * (1 / 5)

/-- Model of `_TOP_OBJECTS = 8`. -/
def TOP_OBJECTS : ℕ := 8

/-- Model of `max(s["count"] for s in object_stats.values()) or 1` (the dict is
non-empty at the call site). -/
def maxCountOf (object_stats : List (String × ObjStats)) : ℕ :=
  let mc := listMaxDNat (object_stats.map fun p => p.2.count) 0
  if mc = 0 then 1 else mc

/-- Descending insertion by importance (stable: ties keep the earlier
element first), modelling `list.sort(key=..., reverse=True)`. -/
def insertDesc (x : ScoredObject) : List ScoredObject → List ScoredObject
  | [] => [x]
  | y :: ys =>
    if x.importance ≤ y.importance then y :: insertDesc x ys else x :: y :: ys

/-- Stable descending sort by importance. -/
def sortDesc (l : List ScoredObject) : List ScoredObject :=
  l.foldl (fun acc x => insertDesc x acc) []

/-- Model of `_score_objects`: accumulate per-canonical-name stats, score each name,
sort descending by importance and keep the top 8. -/
def score_objects (analyses : List PostAnalysisWithMeta)
    (dedup_map : List (String × String)) : List ScoredObject :=
  let object_stats := collect_stats analyses dedup_map
  let max_likes := maxLikes analyses
  if object_stats = [] then []
  else
    let max_count := maxCountOf object_stats
    let scored := object_stats.map fun p =>
      ({ name := p.1
         importance := round4 (scoreOfStats p.2 max_count max_likes)
         description := p.2.descriptions.headD ""
         source_image_url := p.2.best_image_url } : ScoredObject)
    (sortDesc scored).take TOP_OBJECTS

/-- Occurrence count of a string in a stream (Python `Counter`). -/
def countOccur (stream : List String) (x : String) : ℕ :=
  stream.count x

/-- Model of `Counter.most_common(1)[0][0]`: the element with the highest count,
earliest first occurrence winning ties. -/
def mostCommon1 (stream : List String) (d : String) : String :=
  match dedupFirst stream with
  | [] => d
  | x :: xs =>
    xs.foldl
      (fun best y => if countOccur stream best < countOccur stream y then y else best)
      x

/-- Stable descending insertion by occurrence count. -/
def insertCountDesc (stream : List String) (x : String) :
    List String → List String
  | [] => [x]
  | y :: ys =>
    if countOccur stream x ≤ countOccur stream y then
      y :: insertCountDesc stream x ys
    else x :: y :: ys

/-- Model of `Counter.most_common(k)`: keys sorted by descending count (stable in
first-occurrence order), truncated to `k`. -/
def mostCommonK (stream : List String) (k : ℕ) : List String :=
  ((dedupFirst stream).foldl (fun acc x => insertCountDesc stream x acc) []).take k

/-- Model of `_derive_atmosphere_deterministic`. -/
def derive_atmosphere_deterministic (analyses : List PostAnalysisWithMeta) :
    RoomAtmosphere :=
  let moodStream := analyses.foldl (fun acc a => acc ++ a.analysis.scene.mood) []
  let lightingStream := analyses.foldl
    (fun acc a =>
      if a.analysis.scene.lighting ≠ "" then acc ++ [a.analysis.scene.lighting]
      else acc)
    []
  let colorStream :=
    analyses.foldl (fun acc a => acc ++ a.analysis.scene.color_palette) []
  { dominant_mood :=
      if moodStream = [] then "warm" else mostCommon1 moodStream "warm"
    dominant_lighting :=
      if lightingStream = [] then "natural"
      else mostCommon1 lightingStream "natural"
    color_palette := mostCommonK colorStream 5 }

/-- Model of `_synthesize_persona`: the prompt it formats is external-facing text that
does not influence the returned value; an empty response falls back to the
default-field response, a raised call propagates, a parsed response is
returned. -/
def synthesize_persona (call : VlmOutcome AggregationVLMResponse) :
    Except String AggregationVLMResponse :=
  match call with
  | .raised msg => .error msg
  | .empty => .ok {}
  | .parsed r => .ok r

/-- Model of `aggregate_analyses`: deduplication, deterministic scoring, deterministic
atmosphere, persona synthesis, and the merge of the synthesized fields over
the deterministic atmosphere. -/
def aggregate_analyses (analyses : List PostAnalysisWithMeta)
    (dedupCall : VlmOutcome DedupResponse)
    (synthCall : VlmOutcome AggregationVLMResponse) :
    Except String AggregatedProfile :=
  match deduplicate_objects (collect_object_names analyses) dedupCall with
  | .error e => .error e
  | .ok dedup_map =>
    let scored_objects := score_objects analyses dedup_map
    let atmosphere := derive_atmosphere_deterministic analyses
    match synthesize_persona synthCall with
    | .error e => .error e
    | .ok vlm =>
      let atmosphere2 := { atmosphere with
        style := if vlm.style ≠ "" then vlm.style else atmosphere.style
        window_view := vlm.window_view
        time_of_day :=
          if vlm.time_of_day ≠ "" then vlm.time_of_day else atmosphere.time_of_day }
      .ok { persona_summary := vlm.persona_summary
            key_objects := scored_objects
            atmosphere := atmosphere2
            hashtag_themes := vlm.hashtag_themes }

/-- Concrete analyses for the C4 counterexample: one post with two detected
objects, so the deduplication call is actually made. -/
def analysesC4 : List PostAnalysisWithMeta :=
  [{ analysis :=
      { objects :=
          [{ name := "guitar", prominence := .center },
           { name := "plant", prominence := .minor }]
        emotional_weight := 3 }
     post_index := 0
     likes := 5 }]

/-- C4 counterexample: a deduplication call that raises propagates out of
`aggregate_analyses` — the thrown error is not swallowed, contradicting
"never raises because of an external-call failure". -/
theorem C4_counterexample :
    aggregate_analyses analysesC4 (.raised "boom") .empty = .error "boom" := by
  have hd : deduplicate_objects (collect_object_names analysesC4)
      (.raised "boom") = .error "boom" := by
    unfold deduplicate_objects
    rw [if_neg (by decide)]
  simp [aggregate_analyses, hd]

/-- C4 (amended): the Aggregator substitutes documented defaults only for
*empty* responses of the deduplication and synthesis calls (identity mapping
and default-field response); an error *raised* by either call propagates out
of `aggregate_analyses`. -/
theorem C4_failure_policy_amended
    (analyses : List PostAnalysisWithMeta) (names : List String) (msg : String)
    (dedupCall : VlmOutcome DedupResponse)
    (synthCall : VlmOutcome AggregationVLMResponse) :
    deduplicate_objects names .empty = .ok (identityMap names) ∧
    synthesize_persona .empty = .ok {} ∧
    (2 ≤ names.length → deduplicate_objects names (.raised msg) = .error msg) ∧
    synthesize_persona (.raised msg) = .error msg ∧
    (2 ≤ (collect_object_names analyses).length →
      aggregate_analyses analyses (.raised msg) synthCall = .error msg) ∧
    (∀ dm, deduplicate_objects (collect_object_names analyses) dedupCall = .ok dm →
      aggregate_analyses analyses dedupCall (.raised msg) = .error msg) ∧
    (∀ dm, deduplicate_objects (collect_object_names analyses) dedupCall = .ok dm →
      aggregate_analyses analyses dedupCall .empty =
        .ok { persona_summary := ""
              key_objects := score_objects analyses dm
              atmosphere :=
                { derive_atmosphere_deterministic analyses with window_view := "" }
              hashtag_themes := [] }) := by
  refine ⟨?_, rfl, ?_, rfl, ?_, ?_, ?_⟩
  · unfold deduplicate_objects
    split <;> rfl
  · intro h
    unfold deduplicate_objects
    rw [if_neg (by omega)]
  · intro h
    have hd : deduplicate_objects (collect_object_names analyses) (.raised msg) =
        .error msg := by
      unfold deduplicate_objects
      rw [if_neg (by omega)]
    simp [aggregate_analyses, hd]
  · intro dm hdm
    simp [aggregate_analyses, hdm, synthesize_persona]
  · intro dm hdm
    simp [aggregate_analyses, hdm, synthesize_persona]

/-- C4 witness: with both calls returning empty bodies on a concrete input,
aggregation succeeds with the identity mapping and default persona fields. -/
theorem C4_witness :
    aggregate_analyses analysesC4 .empty .empty =
      .ok { persona_summary := ""
            key_objects := score_objects analysesC4
              (identityMap (collect_object_names analysesC4))
            atmosphere :=
              { derive_atmosphere_deterministic analysesC4 with window_view := "" }
            hashtag_themes := [] } :=
  (C4_failure_policy_amended analysesC4 (collect_object_names analysesC4) "m"
      .empty .empty).2.2.2.2.2.2
    (identityMap (collect_object_names analysesC4))
    ((C4_failure_policy_amended analysesC4 (collect_object_names analysesC4) "m"
      .empty .empty).1)

/-- Concrete analyses for the C5 counterexample: a post with a large negative
like count drives one object's importance below zero. -/
def analysesC5 : List PostAnalysisWithMeta :=
  [{ analysis :=
      { objects := [{ name := "b", prominence := .center }]
        emotional_weight := 3 }
     post_index := 0
     likes := 10 },
   { analysis :=
      { objects := [{ name := "a", prominence := .minor }]
        emotional_weight := 1 }
     post_index := 1
     likes := -1000 }]

/-- C5 counterexample: the claim constrains only the emotional weights, but
with a negative like count (allowed by the data model) the normalized likes
term is unbounded below and an importance value leaves `[0, 1]`. -/
theorem C5_counterexample :
    analysesC5 ≠ [] ∧
    (∀ a ∈ analysesC5,
      1 ≤ a.analysis.emotional_weight ∧ a.analysis.emotional_weight ≤ 5) ∧
    ¬ (∀ o ∈ score_objects analysesC5 [],
        0 ≤ o.importance ∧ o.importance ≤ 1) := by
  refine ⟨by decide, by decide, ?_⟩
  intro hall
  have hmem : ({ name := "a", importance := -98 / 5 } : ScoredObject) ∈
      score_objects analysesC5 [] := by
    norm_num +decide [score_objects, collect_stats, analysesC5, canonicalOf,
      alistGet, alistSet, observe, PROMINENCE_SCORE, maxLikes, maxCountOf,
      listMaxD, listMaxDNat, max_def, round4, round_eq, scoreOfStats, sortDesc,
      insertDesc, TOP_OBJECTS]
  have := hall _ hmem
  norm_num at this

/-! ### Direct characterization of the accumulated statistics -/

/-- The stream of (post, detected object) observations, in iteration order of
the nested loops of `_score_objects`. -/
def obsOf : List PostAnalysisWithMeta → List (PostAnalysisWithMeta × DetectedObject)
  | [] => []
  | a :: rest => a.analysis.objects.map (fun o => (a, o)) ++ obsOf rest

/-- One step of the accumulation loop, on a single observation. -/
def statStep (dedup_map : List (String × String))
    (m : List (String × ObjStats)) (p : PostAnalysisWithMeta × DetectedObject) :
    List (String × ObjStats) :=
  let canonical := canonicalOf dedup_map p.2.name
  alistSet m canonical (observe p.1 p.2 ((alistGet m canonical).getD {}))

/-- The observations contributing to one canonical name. -/
def obsFor (analyses : List PostAnalysisWithMeta)
    (dedup_map : List (String × String)) (c : String) :
    List (PostAnalysisWithMeta × DetectedObject) :=
  (obsOf analyses).filter fun p => canonicalOf dedup_map p.2.name == c

/-- Folding the observation step over a list of observations. -/
def obsFold (ps : List (PostAnalysisWithMeta × DetectedObject))
    (init : ObjStats) : ObjStats :=
  ps.foldl (fun s p => observe p.1 p.2 s) init

/-- The canonical names in first-occurrence order. -/
def allCanonicals (analyses : List PostAnalysisWithMeta)
    (dedup_map : List (String × String)) : List String :=
  dedupFirst ((obsOf analyses).map fun p => canonicalOf dedup_map p.2.name)

/-- The maximum observation count across canonical names (`or 1`). -/
def maxCountDirect (analyses : List PostAnalysisWithMeta)
    (dedup_map : List (String × String)) : ℕ :=
  let mc := listMaxDNat
    ((allCanonicals analyses dedup_map).map
      fun c => (obsFor analyses dedup_map c).length) 0
  if mc = 0 then 1 else mc

/-- The importance of a canonical name, written directly from the spec's
formula: 0.3·(count/max count) + 0.25·(mean prominence score) +
0.25·(mean emotional weight / 5) + 0.2·(mean like count / max like count). -/
def importanceFormula (analyses : List PostAnalysisWithMeta)
    (dedup_map : List (String × String)) (c : String) : ℚ :=
  let ps := obsFor analyses dedup_map c
  ((ps.length : ℚ) / (maxCountDirect analyses dedup_map : ℚ)) * (3 / 10) +
    ((ps.map fun p => PROMINENCE_SCORE p.2.prominence).sum / (ps.length : ℚ)) *
      (1 / 4) +
    ((((ps.map fun p => p.1.analysis.emotional_weight).sum : ℚ) /
        (ps.length : ℚ)) / 5) * (1 / 4) +
    ((((ps.map fun p => p.1.likes).sum : ℚ) / (ps.length : ℚ)) /
        (maxLikes analyses : ℚ)) * (1 / 5)

theorem alistGet_set_self {κ β : Type} [DecidableEq κ] :
    ∀ (m : List (κ × β)) (k : κ) (v : β), alistGet (alistSet m k v) k = some v
  | [], k, v => by simp [alistGet, alistSet]
  | (k1, v1) :: rest, k, v => by
    by_cases h : k1 = k
    · simp [alistGet, alistSet, h]
    · simp only [alistSet, if_neg h, alistGet]
      exact alistGet_set_self rest k v

theorem alistGet_set_ne {κ β : Type} [DecidableEq κ] :
    ∀ (m : List (κ × β)) {k c : κ} (_ : k ≠ c) (v : β),
      alistGet (alistSet m k v) c = alistGet m c
  | [], k, c, h, v => by simp [alistGet, alistSet, h]
  | (k1, v1) :: rest, k, c, h, v => by
    by_cases h1 : k1 = k
    · subst h1
      simp [alistGet, alistSet, h]
    · simp only [alistSet, if_neg h1, alistGet]
      by_cases h2 : k1 = c
      · simp [h2]
      · rw [if_neg h2, if_neg h2]
        exact alistGet_set_ne rest h v

theorem alistSet_keys {κ β : Type} [DecidableEq κ] :
    ∀ (m : List (κ × β)) (k : κ) (v : β),
      (alistSet m k v).map Prod.fst =
        if k ∈ m.map Prod.fst then m.map Prod.fst else m.map Prod.fst ++ [k]
  | [], k, v => by simp [alistSet]
  | (k1, v1) :: rest, k, v => by
    by_cases h : k1 = k
    · subst h
      simp [alistSet]
    · have ih := alistSet_keys rest k v
      by_cases h2 : k ∈ rest.map Prod.fst
      · simp [alistSet, if_neg h, List.map_cons, ih, h2, Ne.symm h]
      · simp [alistSet, if_neg h, List.map_cons, ih, h2, Ne.symm h]

theorem alistGet_of_mem_of_nodup {κ β : Type} [DecidableEq κ] :
    ∀ (m : List (κ × β)), (m.map Prod.fst).Nodup →
      ∀ {k : κ} {v : β}, (k, v) ∈ m → alistGet m k = some v
  | [], _, k, v, h => by simp at h
  | (k1, v1) :: rest, hnd, k, v, h => by
    rcases List.mem_cons.mp h with h1 | h1
    · have hk : k = k1 := congrArg Prod.fst h1
      have hv : v = v1 := congrArg Prod.snd h1
      subst hk
      subst hv
      simp [alistGet]
    · have hk1 : k1 ≠ k := by
        intro he
        subst he
        have : k1 ∈ rest.map Prod.fst :=
          List.mem_map.mpr ⟨(k1, v), h1, rfl⟩
        simp [List.map_cons, List.nodup_cons, this] at hnd
      simp only [alistGet, if_neg hk1]
      exact alistGet_of_mem_of_nodup rest (by
        simp only [List.map_cons, List.nodup_cons] at hnd
        exact hnd.2) h1

theorem collect_stats_eq_flat (analyses : List PostAnalysisWithMeta)
    (dedup_map : List (String × String)) :
    collect_stats analyses dedup_map =
      (obsOf analyses).foldl (statStep dedup_map) [] := by
  suffices h : ∀ (l : List PostAnalysisWithMeta) (m : List (String × ObjStats)),
      l.foldl
        (fun m2 a =>
          a.analysis.objects.foldl
            (fun m3 obj =>
              let canonical := canonicalOf dedup_map obj.name
              alistSet m3 canonical
                (observe a obj ((alistGet m3 canonical).getD {})))
            m2)
        m = (obsOf l).foldl (statStep dedup_map) m by
    exact h analyses []
  intro l
  induction l with
  | nil => intro m; simp [obsOf]
  | cons a rest ih =>
    intro m
    simp only [List.foldl_cons, obsOf, List.foldl_append, ih]
    congr 1
    rw [List.foldl_map]
    rfl

theorem foldPairs_lookup (dedup_map : List (String × String)) :
    ∀ (pairs : List (PostAnalysisWithMeta × DetectedObject))
      (m : List (String × ObjStats)) (c : String),
      alistGet (pairs.foldl (statStep dedup_map) m) c =
        match alistGet m c,
          pairs.filter (fun p => canonicalOf dedup_map p.2.name == c) with
        | some s, ps => some (obsFold ps s)
        | none, [] => none
        | none, p :: ps => some (obsFold (p :: ps) {})
  | [], m, c => by
    cases h : alistGet m c <;> simp [obsFold, h]
  | p :: rest, m, c => by
    have ih := foldPairs_lookup dedup_map rest
    by_cases hc : canonicalOf dedup_map p.2.name = c
    · have hstep : statStep dedup_map m p =
          alistSet m c (observe p.1 p.2 ((alistGet m c).getD {})) := by
        simp [statStep, hc]
      simp only [List.foldl_cons, hstep]
      rw [ih, alistGet_set_self]
      have hfil : (p :: rest).filter
            (fun q => canonicalOf dedup_map q.2.name == c) =
          p :: rest.filter (fun q => canonicalOf dedup_map q.2.name == c) := by
        simp [List.filter_cons, hc]
      rw [hfil]
      cases h : alistGet m c with
      | none => simp [obsFold, h]
      | some s => simp [obsFold, h]
    · have hstep : statStep dedup_map m p =
          alistSet m (canonicalOf dedup_map p.2.name)
            (observe p.1 p.2
              ((alistGet m (canonicalOf dedup_map p.2.name)).getD {})) := rfl
      simp only [List.foldl_cons, hstep]
      rw [ih, alistGet_set_ne _ hc]
      have hfil : (p :: rest).filter
            (fun q => canonicalOf dedup_map q.2.name == c) =
          rest.filter (fun q => canonicalOf dedup_map q.2.name == c) := by
        simp [List.filter_cons, hc]
      rw [hfil]

theorem observe_fields (a : PostAnalysisWithMeta) (obj : DetectedObject)
    (s : ObjStats) :
    (observe a obj s).count = s.count + 1 ∧
    (observe a obj s).prominences =
      s.prominences ++ [PROMINENCE_SCORE obj.prominence] ∧
    (observe a obj s).emotional_weights =
      s.emotional_weights ++ [a.analysis.emotional_weight] ∧
    (observe a obj s).likes = s.likes ++ [a.likes] := by
  simp only [observe]
  split_ifs <;> simp

theorem obsFold_fields :
    ∀ (ps : List (PostAnalysisWithMeta × DetectedObject)) (init : ObjStats),
      (obsFold ps init).count = init.count + ps.length ∧
      (obsFold ps init).prominences =
        init.prominences ++ ps.map (fun p => PROMINENCE_SCORE p.2.prominence) ∧
      (obsFold ps init).emotional_weights =
        init.emotional_weights ++
          ps.map (fun p => p.1.analysis.emotional_weight) ∧
      (obsFold ps init).likes = init.likes ++ ps.map (fun p => p.1.likes)
  | [], init => by simp [obsFold]
  | p :: rest, init => by
    have ih := obsFold_fields rest (observe p.1 p.2 init)
    have hf := observe_fields p.1 p.2 init
    simp only [obsFold, List.foldl_cons] at ih ⊢
    refine ⟨?_, ?_, ?_, ?_⟩
    · rw [ih.1, hf.1]
      simp only [List.length_cons]
      omega
    · rw [ih.2.1, hf.2.1]
      simp
    · rw [ih.2.2.1, hf.2.2.1]
      simp
    · rw [ih.2.2.2, hf.2.2.2]
      simp

theorem dedupFirstAux_nodup :
    ∀ (stream seen : List String),
      (dedupFirstAux seen stream).Nodup ∧
        ∀ x ∈ dedupFirstAux seen stream, x ∉ seen
  | [], seen => by simp [dedupFirstAux]
  | x :: rest, seen => by
    by_cases h : x ∈ seen
    · simpa [dedupFirstAux, h] using dedupFirstAux_nodup rest seen
    · have ih := dedupFirstAux_nodup rest (seen ++ [x])
      simp only [dedupFirstAux, h, if_false]
      constructor
      · refine List.nodup_cons.mpr ⟨?_, ih.1⟩
        intro hx
        have := ih.2 x hx
        simp at this
      · intro y hy
        rcases List.mem_cons.mp hy with rfl | hy2
        · exact h
        · intro hseen
          exact (ih.2 y hy2) (by simp [hseen])

theorem foldPairs_keys (dedup_map : List (String × String)) :
    ∀ (pairs : List (PostAnalysisWithMeta × DetectedObject))
      (m : List (String × ObjStats)),
      ((pairs.foldl (statStep dedup_map) m).map Prod.fst) =
        m.map Prod.fst ++
          dedupFirstAux (m.map Prod.fst)
            (pairs.map fun p => canonicalOf dedup_map p.2.name)
  | [], m => by simp [dedupFirstAux]
  | p :: rest, m => by
    have ih := foldPairs_keys dedup_map rest (statStep dedup_map m p)
    by_cases h : canonicalOf dedup_map p.2.name ∈ m.map Prod.fst
    · have hstep : (statStep dedup_map m p).map Prod.fst = m.map Prod.fst := by
        simp only [statStep]
        rw [alistSet_keys]
        simp [h]
      simp only [List.foldl_cons, List.map_cons]
      rw [ih, hstep]
      simp [dedupFirstAux, h]
    · have hstep : (statStep dedup_map m p).map Prod.fst =
          m.map Prod.fst ++ [canonicalOf dedup_map p.2.name] := by
        simp only [statStep]
        rw [alistSet_keys]
        simp [h]
      simp only [List.foldl_cons, List.map_cons]
      rw [ih, hstep]
      simp [dedupFirstAux, h, List.append_assoc]

theorem collect_stats_keys_nodup (analyses : List PostAnalysisWithMeta)
    (dedup_map : List (String × String)) :
    ((collect_stats analyses dedup_map).map Prod.fst).Nodup := by
  rw [collect_stats_eq_flat, foldPairs_keys]
  simpa using (dedupFirstAux_nodup ((obsOf analyses).map
    fun p => canonicalOf dedup_map p.2.name) []).1

theorem collect_stats_keys (analyses : List PostAnalysisWithMeta)
    (dedup_map : List (String × String)) :
    (collect_stats analyses dedup_map).map Prod.fst =
      allCanonicals analyses dedup_map := by
  rw [collect_stats_eq_flat, foldPairs_keys]
  simp [allCanonicals, dedupFirst]

theorem foldl_max_ge_init {α : Type} [LinearOrder α] :
    ∀ (l : List α) (init : α), init ≤ l.foldl max init
  | [], _ => le_refl _
  | y :: ys, init =>
    le_trans (le_max_left init y) (foldl_max_ge_init ys (max init y))

theorem foldl_max_ge_mem {α : Type} [LinearOrder α] :
    ∀ (l : List α) (init : α) {x : α}, x ∈ l → x ≤ l.foldl max init
  | y :: ys, init, x, h => by
    rcases List.mem_cons.mp h with rfl | h2
    · exact le_trans (le_max_right init x) (foldl_max_ge_init ys _)
    · exact foldl_max_ge_mem ys _ h2

theorem listMaxD_ge_mem {l : List ℤ} {x : ℤ} (h : x ∈ l) (d : ℤ) :
    x ≤ listMaxD l d := by
  match l, h with
  | y :: ys, h =>
    simp only [listMaxD]
    rcases List.mem_cons.mp h with rfl | h2
    · exact foldl_max_ge_init ys x
    · exact foldl_max_ge_mem ys y h2

theorem listMaxDNat_ge_mem {l : List ℕ} {x : ℕ} (h : x ∈ l) (d : ℕ) :
    x ≤ listMaxDNat l d := by
  match l, h with
  | y :: ys, h =>
    simp only [listMaxDNat]
    rcases List.mem_cons.mp h with rfl | h2
    · exact foldl_max_ge_init ys x
    · exact foldl_max_ge_mem ys y h2

theorem mean_bounds {l : List ℚ} (hne : l ≠ []) {lo hi : ℚ}
    (h : ∀ x ∈ l, lo ≤ x ∧ x ≤ hi) :
    lo ≤ l.sum / (l.length : ℚ) ∧ l.sum / (l.length : ℚ) ≤ hi := by
  have hlen : 0 < (l.length : ℚ) := by
    exact_mod_cast List.length_pos.mpr hne
  constructor
  · rw [le_div_iff₀ hlen]
    have := List.card_nsmul_le_sum l lo (fun x hx => (h x hx).1)
    rwa [nsmul_eq_mul, mul_comm] at this
  · rw [div_le_iff₀ hlen]
    have := List.sum_le_card_nsmul l hi (fun x hx => (h x hx).2)
    rwa [nsmul_eq_mul, mul_comm] at this

theorem round4_mem_unit {q : ℚ} (h0 : 0 ≤ q) (h1 : q ≤ 1) :
    0 ≤ round4 q ∧ round4 q ≤ 1 := by
  have hlow : (0 : ℤ) ≤ round (q * 10000) := by
    rw [round_eq]
    have : (0 : ℤ) = ⌊(1 : ℚ) / 2⌋ := by norm_num
    rw [this]
    apply Int.floor_le_floor
    nlinarith
  have hhigh : round (q * 10000) ≤ 10000 := by
    rw [round_eq]
    have h2 : (10000 : ℤ) = ⌊(10000 : ℚ) + 1 / 2⌋ := by norm_num
    rw [h2]
    apply Int.floor_le_floor
    nlinarith
  constructor
  · unfold round4
    apply div_nonneg
    · exact_mod_cast hlow
    · norm_num
  · unfold round4
    rw [div_le_one (by norm_num : (0 : ℚ) < 10000)]
    exact_mod_cast hhigh

theorem insertDesc_perm (x : ScoredObject) :
    ∀ l : List ScoredObject, (insertDesc x l).Perm (x :: l)
  | [] => List.Perm.refl _
  | y :: ys => by
    simp only [insertDesc]
    split
    · exact ((insertDesc_perm x ys).cons y).trans (List.Perm.swap x y ys)
    · exact List.Perm.refl _

theorem sortDesc_perm (l : List ScoredObject) : (sortDesc l).Perm l := by
  suffices h : ∀ (l acc : List ScoredObject),
      (l.foldl (fun acc2 x => insertDesc x acc2) acc).Perm (acc ++ l) by
    simpa using h l []
  intro l
  induction l with
  | nil => intro acc; simp
  | cons x rest ih =>
    intro acc
    simp only [List.foldl_cons]
    refine (ih (insertDesc x acc)).trans ?_
    refine (List.Perm.append_right rest (insertDesc_perm x acc)).trans ?_
    simpa using List.perm_middle.symm

/-- Non-increasing importance as a pairwise relation. -/
def ImpDesc (a b : ScoredObject) : Prop := b.importance ≤ a.importance

theorem insertDesc_pairwise {x : ScoredObject} :
    ∀ {l : List ScoredObject}, l.Pairwise ImpDesc →
      (insertDesc x l).Pairwise ImpDesc := by
  intro l
  induction l with
  | nil => intro _; simp [insertDesc, List.pairwise_cons]
  | cons y ys ih =>
    intro h
    rcases List.pairwise_cons.mp h with ⟨hy, hys⟩
    simp only [insertDesc]
    split
    · rename_i hle
      refine List.pairwise_cons.mpr ⟨?_, ih hys⟩
      intro z hz
      rcases List.mem_cons.mp ((insertDesc_perm x ys).mem_iff.mp hz) with rfl | hz2
      · exact hle
      · exact hy z hz2
    · rename_i hlt
      refine List.pairwise_cons.mpr ⟨?_, h⟩
      intro z hz
      rcases List.mem_cons.mp hz with rfl | hz2
      · exact le_of_not_le hlt
      · exact le_trans (hy z hz2) (le_of_not_le hlt)

theorem sortDesc_pairwise (l : List ScoredObject) :
    (sortDesc l).Pairwise ImpDesc := by
  suffices h : ∀ (l acc : List ScoredObject), acc.Pairwise ImpDesc →
      (l.foldl (fun acc2 x => insertDesc x acc2) acc).Pairwise ImpDesc by
    exact h l [] (List.Pairwise.nil)
  intro l
  induction l with
  | nil => intro acc h; simpa using h
  | cons x rest ih =>
    intro acc h
    simp only [List.foldl_cons]
    exact ih _ (insertDesc_pairwise h)

theorem mean_bounds_int {l : List ℤ} (hne : l ≠ []) {lo hi : ℤ}
    (h : ∀ x ∈ l, lo ≤ x ∧ x ≤ hi) :
    (lo : ℚ) ≤ (l.sum : ℚ) / (l.length : ℚ) ∧
      (l.sum : ℚ) / (l.length : ℚ) ≤ (hi : ℚ) := by
  have hmap : l.map (fun z : ℤ => (z : ℚ)) ≠ [] := by simpa using hne
  have hsum : (l.map (fun z : ℤ => (z : ℚ))).sum = (l.sum : ℚ) := by
    induction l with
    | nil => simp
    | cons x xs ih => push_cast [List.sum_cons]; simp [ih]
  have hb := @mean_bounds (l.map (fun z : ℤ => (z : ℚ))) hmap (lo : ℚ) (hi : ℚ)
    (by
      intro x hx
      obtain ⟨z, hz, rfl⟩ := List.mem_map.mp hx
      exact ⟨by exact_mod_cast (h z hz).1, by exact_mod_cast (h z hz).2⟩)
  rwa [hsum, List.length_map] at hb

theorem fst_mem_of_mem_obsOf :
    ∀ {analyses : List PostAnalysisWithMeta}
      {pr : PostAnalysisWithMeta × DetectedObject},
      pr ∈ obsOf analyses → pr.1 ∈ analyses := by
  intro analyses
  induction analyses with
  | nil => intro pr h; simp [obsOf] at h
  | cons a rest ih =>
    intro pr h
    simp only [obsOf, List.mem_append] at h
    rcases h with h1 | h1
    · obtain ⟨o, _, rfl⟩ := List.mem_map.mp h1
      simp
    · exact List.mem_cons_of_mem a (ih h1)

theorem collect_stats_entry (analyses : List PostAnalysisWithMeta)
    (dedup_map : List (String × String)) {pr : String × ObjStats}
    (hpr : pr ∈ collect_stats analyses dedup_map) :
    obsFor analyses dedup_map pr.1 ≠ [] ∧
    pr.2 = obsFold (obsFor analyses dedup_map pr.1) {} := by
  have hget : alistGet (collect_stats analyses dedup_map) pr.1 = some pr.2 :=
    alistGet_of_mem_of_nodup _ (collect_stats_keys_nodup analyses dedup_map) hpr
  have hchar := foldPairs_lookup dedup_map (obsOf analyses) [] pr.1
  rw [← collect_stats_eq_flat, hget] at hchar
  cases hfil : (obsOf analyses).filter
      (fun q => canonicalOf dedup_map q.2.name == pr.1) with
  | nil =>
    rw [hfil] at hchar
    simp [alistGet] at hchar
  | cons q qs =>
    rw [hfil] at hchar
    simp only [alistGet, Option.some.injEq] at hchar
    have hobs : obsFor analyses dedup_map pr.1 = q :: qs := by
      unfold obsFor
      exact hfil
    rw [hobs]
    exact ⟨by simp, hchar⟩

theorem collect_stats_entry_count (analyses : List PostAnalysisWithMeta)
    (dedup_map : List (String × String)) {pr : String × ObjStats}
    (hpr : pr ∈ collect_stats analyses dedup_map) :
    pr.2.count = (obsFor analyses dedup_map pr.1).length := by
  obtain ⟨_, hst⟩ := collect_stats_entry analyses dedup_map hpr
  rw [hst, (obsFold_fields _ _).1]
  simp

theorem maxCountOf_eq (analyses : List PostAnalysisWithMeta)
    (dedup_map : List (String × String)) :
    maxCountOf (collect_stats analyses dedup_map) =
      maxCountDirect analyses dedup_map := by
  unfold maxCountOf maxCountDirect
  have hmap : (collect_stats analyses dedup_map).map (fun p => p.2.count) =
      (allCanonicals analyses dedup_map).map
        (fun c => (obsFor analyses dedup_map c).length) := by
    rw [← collect_stats_keys analyses dedup_map]
    simp only [List.map_map, Function.comp]
    exact List.map_congr_left
      (fun pr hpr => collect_stats_entry_count analyses dedup_map hpr)
  rw [hmap]

theorem scoreOfStats_bounds {s : ObjStats} {max_count : ℕ} {max_likes : ℤ}
    (hc1 : 1 ≤ s.count) (hc2 : s.count ≤ max_count)
    (hpne : s.prominences ≠ [])
    (hpb : ∀ x ∈ s.prominences, (1 / 5 : ℚ) ≤ x ∧ x ≤ 1)
    (hwne : s.emotional_weights ≠ [])
    (hwb : ∀ x ∈ s.emotional_weights, (1 : ℤ) ≤ x ∧ x ≤ 5)
    (hlne : s.likes ≠ [])
    (hml : 0 < max_likes)
    (hlb : ∀ x ∈ s.likes, (0 : ℤ) ≤ x ∧ x ≤ max_likes) :
    0 ≤ scoreOfStats s max_count max_likes ∧
      scoreOfStats s max_count max_likes ≤ 1 := by
  have hmcq : (0 : ℚ) < (max_count : ℚ) := by
    have : 0 < max_count := by omega
    exact_mod_cast this
  have hfreq1 : (s.count : ℚ) / (max_count : ℚ) ≤ 1 := by
    rw [div_le_one hmcq]
    exact_mod_cast hc2
  have hfreq0 : (0 : ℚ) ≤ (s.count : ℚ) / (max_count : ℚ) := by positivity
  have hprom := mean_bounds hpne hpb
  have hemo := mean_bounds_int hwne hwb
  have hlk := mean_bounds_int hlne hlb
  have hmlq : (0 : ℚ) < (max_likes : ℚ) := by exact_mod_cast hml
  have hlk0 : (0 : ℚ) ≤ (s.likes.sum : ℚ) / (s.likes.length : ℚ) := by
    have := hlk.1
    simpa using this
  have hlk1 : ((s.likes.sum : ℚ) / (s.likes.length : ℚ)) / (max_likes : ℚ) ≤ 1 := by
    rw [div_le_one hmlq]
    exact hlk.2
  have hlk0b : (0 : ℚ) ≤
      ((s.likes.sum : ℚ) / (s.likes.length : ℚ)) / (max_likes : ℚ) :=
    div_nonneg hlk0 hmlq.le
  have hemo1 : (1 : ℚ) ≤ (s.emotional_weights.sum : ℚ) /
      (s.emotional_weights.length : ℚ) := by
    have := hemo.1
    simpa using this
  have hemo5 : (s.emotional_weights.sum : ℚ) /
      (s.emotional_weights.length : ℚ) ≤ 5 := by
    have := hemo.2
    simpa using this
  simp only [scoreOfStats]
  constructor
  · linarith [hprom.1]
  · linarith [hprom.2]

theorem scoreOfStats_entry_eq (analyses : List PostAnalysisWithMeta)
    (dedup_map : List (String × String)) {pr : String × ObjStats}
    (hpr : pr ∈ collect_stats analyses dedup_map) :
    scoreOfStats pr.2 (maxCountOf (collect_stats analyses dedup_map))
        (maxLikes analyses) =
      importanceFormula analyses dedup_map pr.1 := by
  obtain ⟨_, hst⟩ := collect_stats_entry analyses dedup_map hpr
  have hfields := obsFold_fields (obsFor analyses dedup_map pr.1) {}
  simp only [scoreOfStats, importanceFormula, maxCountOf_eq, hst,
    hfields.1, hfields.2.1, hfields.2.2.1, hfields.2.2.2]
  simp [List.length_map, Function.comp_def]

theorem maxLikes_bounds (analyses : List PostAnalysisWithMeta)
    (hne : analyses ≠ []) (hl : ∀ a ∈ analyses, 0 ≤ a.likes) :
    0 < maxLikes analyses ∧
      listMaxD (analyses.map PostAnalysisWithMeta.likes) 1 ≤
        maxLikes analyses := by
  obtain ⟨a, rest, rfl⟩ := List.exists_cons_of_ne_nil hne
  have ha : a ∈ a :: rest := List.mem_cons_self a rest
  have h0 : 0 ≤ a.likes := hl a ha
  have hm : a.likes ≤ listMaxD ((a :: rest).map PostAnalysisWithMeta.likes) 1 :=
    listMaxD_ge_mem (List.mem_map.mpr ⟨a, ha, rfl⟩) 1
  have hm0 : 0 ≤ listMaxD ((a :: rest).map PostAnalysisWithMeta.likes) 1 :=
    le_trans h0 hm
  simp only [maxLikes]
  split_ifs with h2 <;> omega

/-- C5 (amended): for every non-empty list of post analyses with emotional
weights in 1-5 *and non-negative like counts*, the scored list has length at
most 8, is non-increasing by importance, and every importance value lies in
[0, 1], is a multiple of 1/10000, and equals the rounded weighted formula
0.3·(count/max count) + 0.25·(mean prominence) + 0.25·(mean weight/5) +
0.2·(mean likes/max likes). -/
theorem C5_score_objects_amended (analyses : List PostAnalysisWithMeta)
    (dedup_map : List (String × String))
    (hne : analyses ≠ [])
    (hw : ∀ a ∈ analyses, 1 ≤ a.analysis.emotional_weight ∧
      a.analysis.emotional_weight ≤ 5)
    (hl : ∀ a ∈ analyses, 0 ≤ a.likes) :
    (score_objects analyses dedup_map).length ≤ 8 ∧
    (score_objects analyses dedup_map).Pairwise ImpDesc ∧
    ∀ o ∈ score_objects analyses dedup_map,
      (0 ≤ o.importance ∧ o.importance ≤ 1) ∧
      o.importance = round4 (importanceFormula analyses dedup_map o.name) ∧
      ∃ z : ℤ, o.importance = (z : ℚ) / 10000 := by
  by_cases hs : collect_stats analyses dedup_map = []
  · refine ⟨?_, ?_, ?_⟩ <;> simp [score_objects, hs]
  · have hexp : score_objects analyses dedup_map =
        (sortDesc ((collect_stats analyses dedup_map).map fun p =>
          ({ name := p.1
             importance := round4 (scoreOfStats p.2
               (maxCountOf (collect_stats analyses dedup_map))
               (maxLikes analyses))
             description := p.2.descriptions.headD ""
             source_image_url := p.2.best_image_url } : ScoredObject))).take
          TOP_OBJECTS := by
      simp only [score_objects, if_neg hs]
    refine ⟨?_, ?_, ?_⟩
    · rw [hexp]
      simp only [List.length_take, TOP_OBJECTS]
      omega
    · rw [hexp]
      exact List.Pairwise.sublist (List.take_sublist _ _) (sortDesc_pairwise _)
    · intro o ho
      rw [hexp] at ho
      have ho3 := (sortDesc_perm _).mem_iff.mp (List.mem_of_mem_take ho)
      obtain ⟨p, hp, rfl⟩ := List.mem_map.mp ho3
      obtain ⟨hps_ne, hst⟩ := collect_stats_entry analyses dedup_map hp
      have hfields := obsFold_fields (obsFor analyses dedup_map p.1) {}
      have hcount : p.2.count = (obsFor analyses dedup_map p.1).length :=
        collect_stats_entry_count analyses dedup_map hp
      have hproms : p.2.prominences =
          (obsFor analyses dedup_map p.1).map
            (fun q => PROMINENCE_SCORE q.2.prominence) := by
        rw [hst, hfields.2.1]
        simp
      have hweights : p.2.emotional_weights =
          (obsFor analyses dedup_map p.1).map
            (fun q => q.1.analysis.emotional_weight) := by
        rw [hst, hfields.2.2.1]
        simp
      have hlikes : p.2.likes =
          (obsFor analyses dedup_map p.1).map (fun q => q.1.likes) := by
        rw [hst, hfields.2.2.2]
        simp
      have hlen_pos : 0 < (obsFor analyses dedup_map p.1).length :=
        List.length_pos.mpr hps_ne
      have hmem_an : ∀ q ∈ obsFor analyses dedup_map p.1, q.1 ∈ analyses :=
        fun q hq => fst_mem_of_mem_obsOf (List.mem_filter.mp hq).1
      have hc1 : 1 ≤ p.2.count := by
        rw [hcount]
        omega
      have hcount_le : p.2.count ≤ maxCountOf (collect_stats analyses dedup_map) := by
        have hmm : p.2.count ∈ (collect_stats analyses dedup_map).map
            fun p2 => p2.2.count := List.mem_map.mpr ⟨p, hp, rfl⟩
        have h1 : p.2.count ≤
            listMaxDNat ((collect_stats analyses dedup_map).map
              fun p2 => p2.2.count) 0 :=
          listMaxDNat_ge_mem hmm 0
        simp only [maxCountOf]
        rw [if_neg (by omega)]
        exact h1
      have hml := maxLikes_bounds analyses hne hl
      have hbounds := scoreOfStats_bounds
        hc1
        hcount_le
        (by rw [hproms]; simp [hps_ne])
        (by
          rw [hproms]
          intro x hx
          obtain ⟨q, hq, rfl⟩ := List.mem_map.mp hx
          cases q.2.prominence <;> norm_num [PROMINENCE_SCORE])
        (by rw [hweights]; simp [hps_ne])
        (by
          rw [hweights]
          intro x hx
          obtain ⟨q, hq, rfl⟩ := List.mem_map.mp hx
          exact hw q.1 (hmem_an q hq))
        (by rw [hlikes]; simp [hps_ne])
        hml.1
        (by
          rw [hlikes]
          intro x hx
          obtain ⟨q, hq, rfl⟩ := List.mem_map.mp hx
          refine ⟨hl q.1 (hmem_an q hq), ?_⟩
          exact le_trans
            (listMaxD_ge_mem (List.mem_map.mpr ⟨q.1, hmem_an q hq, rfl⟩) 1)
            hml.2)
      refine ⟨?_, ?_, ?_⟩
      · exact round4_mem_unit hbounds.1 hbounds.2
      · exact congrArg round4 (scoreOfStats_entry_eq analyses dedup_map hp)
      · exact ⟨round (scoreOfStats p.2
          (maxCountOf (collect_stats analyses dedup_map))
          (maxLikes analyses) * 10000), rfl⟩

/-- Concrete analyses for the C5 witness: one post, in-range weight,
non-negative likes. -/
def analysesC5w : List PostAnalysisWithMeta :=
  [{ analysis :=
      { objects := [{ name := "guitar", prominence := .center }]
        emotional_weight := 4 }
     post_index := 0
     likes := 7 }]

/-- C5 witness: the amended theorem applied at a concrete input. -/
theorem C5_witness :
    (score_objects analysesC5w []).length ≤ 8 ∧
    (score_objects analysesC5w []).Pairwise ImpDesc ∧
    ∀ o ∈ score_objects analysesC5w [],
      (0 ≤ o.importance ∧ o.importance ≤ 1) ∧
      o.importance = round4 (importanceFormula analysesC5w [] o.name) ∧
      ∃ z : ℤ, o.importance = (z : ℚ) / 10000 :=
  C5_score_objects_amended analysesC5w [] (by decide) (by decide) (by decide)

/-- C9: the placement matcher accepts a placement for some candidate name
exactly when the leading name (before the first colon) equals that name
case-insensitively or shares more than half of the tokens of the shorter
token set; in particular "guitar" matches "guitar: near the window" and
"cat" does not match "catalog: tall bookshelf". -/
theorem C9_placement_matching :
    (∀ (placement : String) (names : List String),
      placement_matches_objects placement names = true ↔
        ∃ name ∈ names, placementMatchRule placement name) ∧
    placement_matches_objects "guitar: near the window" ["guitar"] = true ∧
    placement_matches_objects "catalog: tall bookshelf" ["cat"] = false :=
  ⟨placement_matches_objects_iff, by decide, by decide⟩

/-! ## Reference images (`vlm/prompt.py`: `_build_reference_images_for_view`) -/

/-- Model of `_MAX_REFERENCE_IMAGES = 14`. -/
def MAX_REFERENCE_IMAGES : ℕ := 14

/-- The loop of `_build_reference_images_for_view`: iterate the ranked key
objects, keep those visible in this view with a non-empty source URL, share
one 1-based slot per URL (comma-joining names), and stop before adding a
15th URL. -/
def build_refs_aux (lower_names : List String) :
    List ScoredObject → List String → List (String × ℕ) → List (ℕ × String) →
    List String × List (ℕ × String)
  | [], urls, _, mapping => (urls, mapping)
  | obj :: rest, urls, url_to_index, mapping =>
    if lowerStr obj.name ∉ lower_names then
      build_refs_aux lower_names rest urls url_to_index mapping
    else if obj.source_image_url = "" then
      build_refs_aux lower_names rest urls url_to_index mapping
    else
      match alistGet url_to_index obj.source_image_url with
      | some idx =>
        build_refs_aux lower_names rest urls url_to_index
          (alistSet mapping idx
            (((alistGet mapping idx).getD "") ++ ", " ++ obj.name))
      | none =>
        if MAX_REFERENCE_IMAGES ≤ urls.length then (urls, mapping)
        else
          build_refs_aux lower_names rest (urls ++ [obj.source_image_url])
            (alistSet url_to_index obj.source_image_url (urls.length + 1))
            (alistSet mapping (urls.length + 1) obj.name)

/-- Model of `_build_reference_images_for_view`. -/
def build_reference_images_for_view (profile : AggregatedProfile)
    (visible_names : List String) : List String × List (ℕ × String) :=
  build_refs_aux (visible_names.map lowerStr) profile.key_objects [] [] []

/-- The objects kept by the loop: visible in this view (by lower-cased name)
with a non-empty source URL. -/
def keptWith (lower_names : List String) (objs : List ScoredObject) :
    List ScoredObject :=
  objs.filter fun o =>
    decide (lowerStr o.name ∈ lower_names) && decide (o.source_image_url ≠ "")

/-- The reference URLs: first-occurrence deduplication of the kept objects'
source URLs. -/
def urlsOfKept (kept : List ScoredObject) : List String :=
  dedupFirst (kept.map ScoredObject.source_image_url)

/-- Comma-join of a list of names (the dict value grows by
`mapping[idx] = f"{mapping[idx]}, {obj.name}"`). -/
def joinComma : List String → String
  | [] => ""
  | [x] => x
  | x :: y :: rest => x ++ ", " ++ joinComma (y :: rest)

/-- The names of all kept objects sharing one source URL, comma-joined. -/
def namesForUrl (kept : List ScoredObject) (u : String) : String :=
  joinComma ((kept.filter fun o => o.source_image_url == u).map ScoredObject.name)

/-- The reference mapping determined by the kept objects: slot `i` holds the
comma-joined names of the objects sharing the `i`-th URL. -/
def mappingFrom (kept : List ScoredObject) (i : ℕ) :
    List String → List (ℕ × String)
  | [] => []
  | u :: us => (i, namesForUrl kept u) :: mappingFrom kept (i + 1) us

/-- The URL-to-slot index determined by the URL list. -/
def urlIdxFrom (i : ℕ) : List String → List (String × ℕ)
  | [] => []
  | u :: us => (u, i) :: urlIdxFrom (i + 1) us

theorem mappingFrom_keys (kept : List ScoredObject) :
    ∀ (us : List String) (i : ℕ),
      (mappingFrom kept i us).map Prod.fst = List.range' i us.length
  | [], i => by simp [mappingFrom]
  | u :: us, i => by
    simp [mappingFrom, List.range', mappingFrom_keys kept us (i + 1)]

theorem joinComma_append (x : String) :
    ∀ l : List String, l ≠ [] →
      joinComma (l ++ [x]) = joinComma l ++ ", " ++ x
  | [y], _ => by simp [joinComma]
  | y :: z :: rest, _ => by
    have ih := joinComma_append x (z :: rest) (by simp)
    simp only [List.cons_append, joinComma]
    show y ++ ", " ++ joinComma ((z :: rest) ++ [x]) = _
    rw [ih]
    simp [String.append_assoc]

theorem mem_dedupFirstAux_iff :
    ∀ (l seen : List String) (x : String),
      x ∈ dedupFirstAux seen l ↔ x ∈ l ∧ x ∉ seen
  | [], seen, x => by simp [dedupFirstAux]
  | y :: rest, seen, x => by
    by_cases h : y ∈ seen
    · rw [show dedupFirstAux seen (y :: rest) = dedupFirstAux seen rest by
        simp [dedupFirstAux, h]]
      rw [mem_dedupFirstAux_iff rest seen x]
      constructor
      · rintro ⟨h1, h2⟩
        exact ⟨List.mem_cons_of_mem y h1, h2⟩
      · rintro ⟨h1, h2⟩
        rcases List.mem_cons.mp h1 with rfl | h3
        · exact absurd h h2
        · exact ⟨h3, h2⟩
    · rw [show dedupFirstAux seen (y :: rest) =
          y :: dedupFirstAux (seen ++ [y]) rest by simp [dedupFirstAux, h]]
      simp only [List.mem_cons, mem_dedupFirstAux_iff rest (seen ++ [y]) x,
        List.mem_append]
      constructor
      · rintro (rfl | ⟨h1, h2⟩)
        · exact ⟨Or.inl rfl, h⟩
        · refine ⟨Or.inr h1, fun hx => h2 (Or.inl hx)⟩
      · rintro ⟨rfl | h1, h2⟩
        · exact Or.inl rfl
        · by_cases hxy : x = y
          · exact Or.inl hxy
          · exact Or.inr ⟨h1, by simp [h2, hxy]⟩

theorem dedupFirstAux_length_le :
    ∀ (l seen : List String), (dedupFirstAux seen l).length ≤ l.length
  | [], seen => by simp [dedupFirstAux]
  | y :: rest, seen => by
    by_cases h : y ∈ seen
    · simp only [dedupFirstAux, h, if_true, List.length_cons]
      exact le_trans (dedupFirstAux_length_le rest seen) (Nat.le_succ _)
    · simp only [dedupFirstAux, h, if_false, List.length_cons]
      exact Nat.succ_le_succ (dedupFirstAux_length_le rest (seen ++ [y]))

theorem alistGet_eq_none_iff {κ β : Type} [DecidableEq κ] :
    ∀ (m : List (κ × β)) (k : κ),
      alistGet m k = none ↔ k ∉ m.map Prod.fst
  | [], k => by simp [alistGet]
  | (k1, v1) :: rest, k => by
    by_cases h : k1 = k
    · simp [alistGet, h]
    · simp [alistGet, h, Ne.symm h, alistGet_eq_none_iff rest k]

theorem alistGet_mem_keys {κ β : Type} [DecidableEq κ] :
    ∀ (m : List (κ × β)) {k : κ} {v : β},
      alistGet m k = some v → k ∈ m.map Prod.fst
  | [], k, v, h => by simp [alistGet] at h
  | (k1, v1) :: rest, k, v, h => by
    by_cases h1 : k1 = k
    · simp [h1]
    · simp only [alistGet, if_neg h1] at h
      simp [alistGet_mem_keys rest h]

theorem alistSet_fresh {κ β : Type} [DecidableEq κ] :
    ∀ (m : List (κ × β)) {k : κ} (v : β), alistGet m k = none →
      alistSet m k v = m ++ [(k, v)]
  | [], k, v, _ => by simp [alistSet]
  | (k1, v1) :: rest, k, v, h => by
    by_cases h1 : k1 = k
    · simp [alistGet, h1] at h
    · simp only [alistGet, if_neg h1] at h
      simp [alistSet, h1, alistSet_fresh rest v h]

theorem dedupFirstAux_append :
    ∀ (l seen : List String) (x : String),
      dedupFirstAux seen (l ++ [x]) =
        if x ∈ seen ∨ x ∈ l then dedupFirstAux seen l
        else dedupFirstAux seen l ++ [x]
  | [], seen, x => by
    by_cases h : x ∈ seen <;> simp [dedupFirstAux, h]
  | y :: rest, seen, x => by
    by_cases h : y ∈ seen
    · simp only [List.cons_append, dedupFirstAux, h, if_true]
      show dedupFirstAux seen (rest ++ [x]) = _
      rw [dedupFirstAux_append rest seen x]
      by_cases hx : x ∈ seen ∨ x ∈ rest
      · rw [if_pos hx, if_pos]
        rcases hx with hx | hx
        · exact Or.inl hx
        · exact Or.inr (List.mem_cons_of_mem y hx)
      · rw [if_neg hx, if_neg]
        intro hcon
        rcases hcon with hc | hc
        · exact hx (Or.inl hc)
        · rcases List.mem_cons.mp hc with rfl | hc2
          · exact hx (Or.inl h)
          · exact hx (Or.inr hc2)
    · simp only [List.cons_append, dedupFirstAux, h, if_false]
      show y :: dedupFirstAux (seen ++ [y]) (rest ++ [x]) = _
      rw [dedupFirstAux_append rest (seen ++ [y]) x]
      by_cases hx : x ∈ seen ++ [y] ∨ x ∈ rest
      · rw [if_pos hx, if_pos]
        rcases hx with hx | hx
        · rcases List.mem_append.mp hx with hx2 | hx2
          · exact Or.inl hx2
          · simp only [List.mem_singleton] at hx2
            exact Or.inr (hx2 ▸ List.mem_cons_self y rest)
        · exact Or.inr (List.mem_cons_of_mem y hx)
      · rw [if_neg hx, if_neg]
        intro hcon
        rcases hcon with hc | hc
        · exact hx (Or.inl (List.mem_append.mpr (Or.inl hc)))
        · rcases List.mem_cons.mp hc with rfl | hc2
          · exact hx (Or.inl (List.mem_append.mpr (Or.inr (by simp))))
          · exact hx (Or.inr hc2)

theorem urlIdxFrom_lookup_ge :
    ∀ (us : List String) (i : ℕ) (u : String) {idx : ℕ},
      alistGet (urlIdxFrom i us) u = some idx → i ≤ idx
  | [], i, u, idx, h => by simp [urlIdxFrom, alistGet] at h
  | u0 :: us, i, u, idx, h => by
    by_cases he : u0 = u
    · simp only [urlIdxFrom, alistGet, if_pos he, Option.some.injEq] at h
      omega
    · simp only [urlIdxFrom, alistGet, if_neg he] at h
      have := urlIdxFrom_lookup_ge us (i + 1) u h
      omega

theorem urlIdxFrom_lookup_none_iff :
    ∀ (us : List String) (i : ℕ) (u : String),
      alistGet (urlIdxFrom i us) u = none ↔ u ∉ us
  | [], i, u => by simp [urlIdxFrom, alistGet]
  | u0 :: us, i, u => by
    by_cases he : u0 = u
    · simp [urlIdxFrom, alistGet, he]
    · simp [urlIdxFrom, alistGet, he, Ne.symm he,
        urlIdxFrom_lookup_none_iff us (i + 1) u]

theorem urlIdxFrom_append (u : String) :
    ∀ (us : List String) (i : ℕ),
      urlIdxFrom i (us ++ [u]) = urlIdxFrom i us ++ [(u, i + us.length)]
  | [], i => by simp [urlIdxFrom]
  | u0 :: us, i => by
    show (u0, i) :: urlIdxFrom (i + 1) (us ++ [u]) = _
    rw [urlIdxFrom_append u us (i + 1)]
    have harith : i + 1 + us.length = i + (u0 :: us).length := by
      simp only [List.length_cons]
      omega
    rw [harith]
    simp [urlIdxFrom, mappingFrom]

theorem mappingFrom_append (kept : List ScoredObject) (u : String) :
    ∀ (us : List String) (i : ℕ),
      mappingFrom kept i (us ++ [u]) =
        mappingFrom kept i us ++ [(i + us.length, namesForUrl kept u)]
  | [], i => by simp [mappingFrom]
  | u0 :: us, i => by
    show (i, namesForUrl kept u0) :: mappingFrom kept (i + 1) (us ++ [u]) = _
    rw [mappingFrom_append kept u us (i + 1)]
    have harith : i + 1 + us.length = i + (u0 :: us).length := by
      simp only [List.length_cons]
      omega
    rw [harith]
    simp [urlIdxFrom, mappingFrom]

theorem mappingFrom_congr {kept kept2 : List ScoredObject} :
    ∀ (us : List String) (i : ℕ),
      (∀ u ∈ us, namesForUrl kept u = namesForUrl kept2 u) →
      mappingFrom kept i us = mappingFrom kept2 i us
  | [], i, _ => by simp [mappingFrom]
  | u0 :: us, i, h => by
    simp only [mappingFrom]
    rw [h u0 (by simp),
      mappingFrom_congr us (i + 1) (fun u hu => h u (List.mem_cons_of_mem u0 hu))]

theorem namesForUrl_append_ne (kept : List ScoredObject) (obj : ScoredObject)
    {u : String} (h : obj.source_image_url ≠ u) :
    namesForUrl (kept ++ [obj]) u = namesForUrl kept u := by
  unfold namesForUrl
  rw [List.filter_append]
  simp [List.filter_cons, h]

theorem namesForUrl_append_eq (kept : List ScoredObject) (obj : ScoredObject)
    (h : (kept.filter fun o => o.source_image_url == obj.source_image_url) ≠ []) :
    namesForUrl (kept ++ [obj]) obj.source_image_url =
      namesForUrl kept obj.source_image_url ++ ", " ++ obj.name := by
  unfold namesForUrl
  rw [List.filter_append]
  simp only [List.filter_cons, beq_self_eq_true, if_pos, List.filter_nil]
  rw [List.map_append]
  exact joinComma_append _ _ (by simpa using h)

theorem namesForUrl_append_nil (kept : List ScoredObject) (obj : ScoredObject)
    (h : (kept.filter fun o => o.source_image_url == obj.source_image_url) = []) :
    namesForUrl (kept ++ [obj]) obj.source_image_url = obj.name := by
  unfold namesForUrl
  rw [List.filter_append, h]
  simp [List.filter_cons, joinComma]

theorem shared_update (obj : ScoredObject) :
    ∀ (us : List String) (i : ℕ) (kept : List ScoredObject),
      us.Nodup →
      obj.source_image_url ∈ us →
      (∀ u ∈ us, (kept.filter fun o => o.source_image_url == u) ≠ []) →
      ∃ idx, alistGet (urlIdxFrom i us) obj.source_image_url = some idx ∧
        alistSet (mappingFrom kept i us) idx
            (((alistGet (mappingFrom kept i us) idx).getD "") ++ ", " ++ obj.name) =
          mappingFrom (kept ++ [obj]) i us
  | [], i, kept, _, hmem, _ => by simp at hmem
  | u0 :: us, i, kept, hnd, hmem, hfil => by
    by_cases he : obj.source_image_url = u0
    · refine ⟨i, ?_, ?_⟩
      · simp [urlIdxFrom, alistGet, he]
      · have hget : alistGet (mappingFrom kept i (u0 :: us)) i =
            some (namesForUrl kept u0) := by
          simp [mappingFrom, alistGet]
        rw [hget]
        simp only [Option.getD_some]
        have hset : alistSet (mappingFrom kept i (u0 :: us)) i
            (namesForUrl kept u0 ++ ", " ++ obj.name) =
            (i, namesForUrl kept u0 ++ ", " ++ obj.name) ::
              mappingFrom kept (i + 1) us := by
          simp [mappingFrom, alistSet]
        rw [hset]
        have hval : namesForUrl (kept ++ [obj]) u0 =
            namesForUrl kept u0 ++ ", " ++ obj.name := by
          rw [← he]
          exact namesForUrl_append_eq kept obj (he ▸ hfil u0 (by simp))
        have htail : mappingFrom kept (i + 1) us =
            mappingFrom (kept ++ [obj]) (i + 1) us := by
          refine mappingFrom_congr us (i + 1) ?_
          intro u hu
          refine (namesForUrl_append_ne kept obj ?_).symm
          rw [he]
          intro hcon
          rw [hcon] at hnd
          exact (List.nodup_cons.mp hnd).1 (hcon ▸ hu)
        simp [mappingFrom, hval, htail]
    · have hmem2 : obj.source_image_url ∈ us := by
        rcases List.mem_cons.mp hmem with h1 | h1
        · exact absurd h1 he
        · exact h1
      obtain ⟨idx, hlook, hset⟩ := shared_update obj us (i + 1) kept
        (List.nodup_cons.mp hnd).2 hmem2
        (fun u hu => hfil u (List.mem_cons_of_mem u0 hu))
      have hge := urlIdxFrom_lookup_ge us (i + 1) obj.source_image_url hlook
      refine ⟨idx, ?_, ?_⟩
      · simpa [urlIdxFrom, alistGet, Ne.symm he] using hlook
      · have hne_i : ¬ i = idx := by omega
        have hget : alistGet (mappingFrom kept i (u0 :: us)) idx =
            alistGet (mappingFrom kept (i + 1) us) idx := by
          simp [mappingFrom, alistGet, hne_i]
        rw [hget]
        have hsetc : alistSet (mappingFrom kept i (u0 :: us)) idx
            (((alistGet (mappingFrom kept (i + 1) us) idx).getD "") ++ ", " ++
              obj.name) =
            (i, namesForUrl kept u0) ::
              alistSet (mappingFrom kept (i + 1) us) idx
                (((alistGet (mappingFrom kept (i + 1) us) idx).getD "") ++ ", " ++
                  obj.name) := by
          simp [mappingFrom, alistSet, hne_i]
        rw [hsetc, hset]
        simp [mappingFrom, namesForUrl_append_ne kept obj he]

theorem urlsOfKept_nodup (kept : List ScoredObject) : (urlsOfKept kept).Nodup :=
  (dedupFirstAux_nodup _ _).1

theorem urls_filter_ne (kept : List ScoredObject) :
    ∀ u ∈ urlsOfKept kept, (kept.filter fun o => o.source_image_url == u) ≠ [] := by
  intro u hu
  have hm : u ∈ kept.map ScoredObject.source_image_url :=
    ((mem_dedupFirstAux_iff _ _ _).mp hu).1
  obtain ⟨o, ho, rfl⟩ := List.mem_map.mp hm
  intro hnil
  have : o ∈ kept.filter fun o2 => o2.source_image_url == o.source_image_url :=
    List.mem_filter.mpr ⟨ho, by simp⟩
  rw [hnil] at this
  simp at this

theorem urlsOfKept_append_mem (kept : List ScoredObject) (obj : ScoredObject)
    (h : obj.source_image_url ∈ kept.map ScoredObject.source_image_url) :
    urlsOfKept (kept ++ [obj]) = urlsOfKept kept := by
  unfold urlsOfKept dedupFirst
  rw [List.map_append]
  show dedupFirstAux [] (kept.map ScoredObject.source_image_url ++
    [obj.source_image_url]) = _
  rw [dedupFirstAux_append, if_pos (Or.inr h)]

theorem urlsOfKept_append_not_mem (kept : List ScoredObject) (obj : ScoredObject)
    (h : obj.source_image_url ∉ kept.map ScoredObject.source_image_url) :
    urlsOfKept (kept ++ [obj]) = urlsOfKept kept ++ [obj.source_image_url] := by
  unfold urlsOfKept dedupFirst
  rw [List.map_append]
  show dedupFirstAux [] (kept.map ScoredObject.source_image_url ++
    [obj.source_image_url]) = _
  rw [dedupFirstAux_append, if_neg]
  intro hc
  rcases hc with hc | hc
  · simp at hc
  · exact h hc

theorem build_refs_aux_spec (lower_names : List String) :
    ∀ (objs kept_pre : List ScoredObject),
      kept_pre.length + (keptWith lower_names objs).length ≤
        MAX_REFERENCE_IMAGES →
      build_refs_aux lower_names objs (urlsOfKept kept_pre)
          (urlIdxFrom 1 (urlsOfKept kept_pre))
          (mappingFrom kept_pre 1 (urlsOfKept kept_pre)) =
        (urlsOfKept (kept_pre ++ keptWith lower_names objs),
          mappingFrom (kept_pre ++ keptWith lower_names objs) 1
            (urlsOfKept (kept_pre ++ keptWith lower_names objs)))
  | [], kept_pre, _ => by simp [build_refs_aux, keptWith]
  | obj :: rest, kept_pre, hlen => by
    by_cases hv : lowerStr obj.name ∈ lower_names
    · by_cases hu : obj.source_image_url = ""
      · have hk : keptWith lower_names (obj :: rest) =
            keptWith lower_names rest := by
          simp [keptWith, List.filter_cons, hu]
        have hstep : build_refs_aux lower_names (obj :: rest)
            (urlsOfKept kept_pre) (urlIdxFrom 1 (urlsOfKept kept_pre))
            (mappingFrom kept_pre 1 (urlsOfKept kept_pre)) =
            build_refs_aux lower_names rest (urlsOfKept kept_pre)
              (urlIdxFrom 1 (urlsOfKept kept_pre))
              (mappingFrom kept_pre 1 (urlsOfKept kept_pre)) := by
          simp [build_refs_aux, hv, hu]
        rw [hstep, hk]
        rw [hk] at hlen
        exact build_refs_aux_spec lower_names rest kept_pre hlen
      · have hk : keptWith lower_names (obj :: rest) =
            obj :: keptWith lower_names rest := by
          simp [keptWith, List.filter_cons, hv, hu]
        have hassoc : kept_pre ++ keptWith lower_names (obj :: rest) =
            (kept_pre ++ [obj]) ++ keptWith lower_names rest := by
          rw [hk]
          simp
        have hlen2 : (kept_pre ++ [obj]).length +
            (keptWith lower_names rest).length ≤ MAX_REFERENCE_IMAGES := by
          rw [hk] at hlen
          simp only [List.length_append, List.length_cons,
            List.length_nil] at hlen ⊢
          omega
        by_cases hmem : obj.source_image_url ∈ urlsOfKept kept_pre
        · obtain ⟨idx, hlook, hset⟩ := shared_update obj (urlsOfKept kept_pre) 1
            kept_pre (urlsOfKept_nodup kept_pre) hmem (urls_filter_ne kept_pre)
          have hstep : build_refs_aux lower_names (obj :: rest)
              (urlsOfKept kept_pre) (urlIdxFrom 1 (urlsOfKept kept_pre))
              (mappingFrom kept_pre 1 (urlsOfKept kept_pre)) =
              build_refs_aux lower_names rest (urlsOfKept kept_pre)
                (urlIdxFrom 1 (urlsOfKept kept_pre))
                (alistSet (mappingFrom kept_pre 1 (urlsOfKept kept_pre)) idx
                  (((alistGet (mappingFrom kept_pre 1 (urlsOfKept kept_pre))
                    idx).getD "") ++ ", " ++ obj.name)) := by
            simp [build_refs_aux, hv, hu, hlook]
          have hmem2 : obj.source_image_url ∈
              kept_pre.map ScoredObject.source_image_url :=
            ((mem_dedupFirstAux_iff _ _ _).mp hmem).1
          have hurls : urlsOfKept (kept_pre ++ [obj]) = urlsOfKept kept_pre :=
            urlsOfKept_append_mem kept_pre obj hmem2
          have target := build_refs_aux_spec lower_names rest (kept_pre ++ [obj])
            hlen2
          rw [hurls] at target
          rw [hstep, hset, hassoc]
          exact target
        · have hlookn : alistGet (urlIdxFrom 1 (urlsOfKept kept_pre))
              obj.source_image_url = none :=
            (urlIdxFrom_lookup_none_iff _ 1 _).mpr hmem
          have hcap : ¬ (MAX_REFERENCE_IMAGES ≤ (urlsOfKept kept_pre).length) := by
            have h1 : (urlsOfKept kept_pre).length ≤ kept_pre.length := by
              refine le_trans (dedupFirstAux_length_le _ _) ?_
              simp
            rw [hk] at hlen
            simp only [List.length_cons, MAX_REFERENCE_IMAGES] at hlen ⊢
            omega
          have hstep : build_refs_aux lower_names (obj :: rest)
              (urlsOfKept kept_pre) (urlIdxFrom 1 (urlsOfKept kept_pre))
              (mappingFrom kept_pre 1 (urlsOfKept kept_pre)) =
              build_refs_aux lower_names rest
                (urlsOfKept kept_pre ++ [obj.source_image_url])
                (alistSet (urlIdxFrom 1 (urlsOfKept kept_pre))
                  obj.source_image_url ((urlsOfKept kept_pre).length + 1))
                (alistSet (mappingFrom kept_pre 1 (urlsOfKept kept_pre))
                  ((urlsOfKept kept_pre).length + 1) obj.name) := by
            simp [build_refs_aux, hv, hu, hlookn, hcap]
          have hmem2 : obj.source_image_url ∉
              kept_pre.map ScoredObject.source_image_url := fun hc =>
            hmem ((mem_dedupFirstAux_iff _ _ _).mpr ⟨hc, by simp⟩)
          have hurls : urlsOfKept (kept_pre ++ [obj]) =
              urlsOfKept kept_pre ++ [obj.source_image_url] :=
            urlsOfKept_append_not_mem kept_pre obj hmem2
          have hfil0 : (kept_pre.filter
              fun o => o.source_image_url == obj.source_image_url) = [] := by
            rw [List.filter_eq_nil_iff]
            intro o ho hc
            exact hmem2 (List.mem_map.mpr ⟨o, ho, by simpa using hc⟩)
          have hidx : alistSet (urlIdxFrom 1 (urlsOfKept kept_pre))
              obj.source_image_url ((urlsOfKept kept_pre).length + 1) =
              urlIdxFrom 1 (urlsOfKept (kept_pre ++ [obj])) := by
            rw [alistSet_fresh _ _ hlookn, hurls, urlIdxFrom_append]
            rw [Nat.add_comm 1 (urlsOfKept kept_pre).length]
          have hmapget : alistGet (mappingFrom kept_pre 1 (urlsOfKept kept_pre))
              ((urlsOfKept kept_pre).length + 1) = none := by
            rw [alistGet_eq_none_iff, mappingFrom_keys]
            simp only [List.mem_range']
            omega
          have hmap : alistSet (mappingFrom kept_pre 1 (urlsOfKept kept_pre))
              ((urlsOfKept kept_pre).length + 1) obj.name =
              mappingFrom (kept_pre ++ [obj]) 1
                (urlsOfKept (kept_pre ++ [obj])) := by
            rw [alistSet_fresh _ _ hmapget, hurls, mappingFrom_append]
            congr 1
            · exact mappingFrom_congr _ 1 fun u hu =>
                (namesForUrl_append_ne kept_pre obj fun hc =>
                  hmem (hc ▸ hu)).symm
            · rw [namesForUrl_append_nil kept_pre obj hfil0,
                Nat.add_comm 1 (urlsOfKept kept_pre).length]
          have target := build_refs_aux_spec lower_names rest (kept_pre ++ [obj])
            hlen2
          rw [hurls] at target
          rw [hstep, hidx, hmap, hassoc]
          rw [hurls]
          exact target
    · have hk : keptWith lower_names (obj :: rest) =
          keptWith lower_names rest := by
        simp [keptWith, List.filter_cons, hv]
      have hstep : build_refs_aux lower_names (obj :: rest)
          (urlsOfKept kept_pre) (urlIdxFrom 1 (urlsOfKept kept_pre))
          (mappingFrom kept_pre 1 (urlsOfKept kept_pre)) =
          build_refs_aux lower_names rest (urlsOfKept kept_pre)
            (urlIdxFrom 1 (urlsOfKept kept_pre))
            (mappingFrom kept_pre 1 (urlsOfKept kept_pre)) := by
        simp [build_refs_aux, hv]
      rw [hstep, hk]
      rw [hk] at hlen
      exact build_refs_aux_spec lower_names rest kept_pre hlen

theorem mappingFrom_lookup_of_mem (kept : List ScoredObject) :
    ∀ (us : List String) (i : ℕ) {u : String}, u ∈ us →
      ∃ j, alistGet (mappingFrom kept i us) j = some (namesForUrl kept u)
  | [], i, u, h => absurd h (by simp)
  | u0 :: us, i, u, h => by
    by_cases he : u = u0
    · exact ⟨i, by simp [mappingFrom, alistGet, he]⟩
    · have hmem : u ∈ us := by
        rcases List.mem_cons.mp h with h1 | h1
        · exact absurd h1 he
        · exact h1
      obtain ⟨j, hj⟩ := mappingFrom_lookup_of_mem kept us (i + 1) hmem
      have hjk : j ∈ (mappingFrom kept (i + 1) us).map Prod.fst :=
        alistGet_mem_keys _ hj
      rw [mappingFrom_keys] at hjk
      have hge : i + 1 ≤ j := by
        simp only [List.mem_range'] at hjk
        omega
      refine ⟨j, ?_⟩
      simp only [mappingFrom, alistGet]
      rw [if_neg (by omega)]
      exact hj

/-- C7: the reference-image mapping has 1-based contiguous slot indices
(exactly `1..k` for the `k` reference URLs), at most 14 reference URLs, and —
as the full characterization in terms of the kept objects shows — objects
sharing one non-empty source URL share a single slot whose value comma-joins
their names.  The hypothesis bounds the profile at 14 key objects; the data
model caps profiles at 8. -/
theorem C7_reference_images (profile : AggregatedProfile)
    (visible_names : List String)
    (hcap : profile.key_objects.length ≤ 14) :
    ((build_reference_images_for_view profile visible_names).2).map Prod.fst =
      List.range' 1
        (build_reference_images_for_view profile visible_names).1.length ∧
    (build_reference_images_for_view profile visible_names).1.length ≤ 14 ∧
    (build_reference_images_for_view profile visible_names).1 =
      urlsOfKept (keptWith (visible_names.map lowerStr) profile.key_objects) ∧
    (build_reference_images_for_view profile visible_names).2 =
      mappingFrom (keptWith (visible_names.map lowerStr) profile.key_objects) 1
        (urlsOfKept (keptWith (visible_names.map lowerStr)
          profile.key_objects)) ∧
    (∀ o1 ∈ profile.key_objects, ∀ o2 ∈ profile.key_objects,
      lowerStr o1.name ∈ visible_names.map lowerStr →
      lowerStr o2.name ∈ visible_names.map lowerStr →
      o1.source_image_url ≠ "" →
      o1.source_image_url = o2.source_image_url →
      ∃ j, alistGet (build_reference_images_for_view profile visible_names).2 j =
          some (namesForUrl (keptWith (visible_names.map lowerStr)
            profile.key_objects) o1.source_image_url) ∧
        o1.name ∈ (((keptWith (visible_names.map lowerStr)
            profile.key_objects).filter
          fun o => o.source_image_url == o1.source_image_url).map
            ScoredObject.name) ∧
        o2.name ∈ (((keptWith (visible_names.map lowerStr)
            profile.key_objects).filter
          fun o => o.source_image_url == o1.source_image_url).map
            ScoredObject.name)) := by
  have hklen : (keptWith (visible_names.map lowerStr)
      profile.key_objects).length ≤ 14 :=
    le_trans (List.length_filter_le _ _) hcap
  have hmain := build_refs_aux_spec (visible_names.map lowerStr)
    profile.key_objects [] (by simpa [MAX_REFERENCE_IMAGES] using hklen)
  simp only [List.nil_append] at hmain
  have hbuild : build_reference_images_for_view profile visible_names =
      (urlsOfKept (keptWith (visible_names.map lowerStr) profile.key_objects),
        mappingFrom (keptWith (visible_names.map lowerStr) profile.key_objects)
          1 (urlsOfKept (keptWith (visible_names.map lowerStr)
            profile.key_objects))) := hmain
  refine ⟨?_, ?_, ?_, ?_, ?_⟩
  · rw [hbuild]
    exact mappingFrom_keys _ _ _
  · rw [hbuild]
    refine le_trans (le_trans (dedupFirstAux_length_le _ _) ?_) hklen
    simp
  · rw [hbuild]
  · rw [hbuild]
  · intro o1 ho1 o2 ho2 hv1 hv2 hu1 h12
    have hk1 : o1 ∈ keptWith (visible_names.map lowerStr) profile.key_objects :=
      List.mem_filter.mpr ⟨ho1, by simp [hv1, hu1]⟩
    have hk2 : o2 ∈ keptWith (visible_names.map lowerStr) profile.key_objects :=
      List.mem_filter.mpr ⟨ho2, by
        simp only [Bool.and_eq_true, decide_eq_true_eq]
        exact ⟨hv2, h12 ▸ hu1⟩⟩
    have humem : o1.source_image_url ∈ urlsOfKept
        (keptWith (visible_names.map lowerStr) profile.key_objects) :=
      (mem_dedupFirstAux_iff _ _ _).mpr
        ⟨List.mem_map.mpr ⟨o1, hk1, rfl⟩, by simp⟩
    obtain ⟨j, hj⟩ := mappingFrom_lookup_of_mem
      (keptWith (visible_names.map lowerStr) profile.key_objects) _ 1 humem
    refine ⟨j, ?_, ?_, ?_⟩
    · rw [hbuild]
      exact hj
    · exact List.mem_map.mpr ⟨o1, List.mem_filter.mpr ⟨hk1, by simp⟩, rfl⟩
    · exact List.mem_map.mpr ⟨o2, List.mem_filter.mpr ⟨hk2, by simp [h12]⟩, rfl⟩

/-- Concrete profile for the C7 witness: two visible objects sharing one
source image URL. -/
def profileC7 : AggregatedProfile :=
  { key_objects :=
      [{ name := "guitar", source_image_url := "http://img/1" },
       { name := "amp", source_image_url := "http://img/1" }] }

/-- C7 witness: the theorem applied to a concrete two-object profile. -/
theorem C7_witness :
    ((build_reference_images_for_view profileC7 ["guitar", "amp"]).2).map
        Prod.fst =
      List.range' 1
        (build_reference_images_for_view profileC7 ["guitar", "amp"]).1.length ∧
    (build_reference_images_for_view profileC7 ["guitar", "amp"]).1.length ≤ 14 :=
  ⟨(C7_reference_images profileC7 ["guitar", "amp"] (by decide)).1,
    (C7_reference_images profileC7 ["guitar", "amp"] (by decide)).2.1⟩

/-! ## 3D scene conversion (`worldslabs/convert.py`) and the pipeline
orchestrator (`pipeline.py`)

The HTTP collaborators are modelled as explicit outcome values: every call
either raises (an `Except.error` carrying the exception message) or returns
its parsed payload.  The polling deadline is modelled by a fuel counter
(number of sleeps remaining before `time.monotonic() >= deadline`). -/

/-- Model of `OperationStatus` poll payload: done flag, optional error (code, message),
optional response world id. -/
structure OperationStatus where
  done : Bool := false
  error : Option (String × String) := none
  response : Option String := none
deriving DecidableEq, Repr

/-- The exception kinds that can escape the `try` body of
`convert_to_3d_scene`. -/
inductive ConvErr
  | wlRaised (msg : String)
  | httpRaised (msg : String)
  | timeoutRaised (msg : String)
  | runtimeRaised (msg : String)
deriving DecidableEq, Repr

/-- Model of `WorldLabsError`. -/
structure WorldLabsError where
  msg : String
deriving DecidableEq, Repr

/-- Model of `spz_urls`. -/
structure SpzUrls where
  full_res : Option String := none
  splat_500k : Option String := none
  splat_100k : Option String := none
deriving DecidableEq, Repr

/-- The asset fields of a `World` that `_build_result` reads. -/
structure WorldAssets where
  splats : Option SpzUrls := none
  collider_mesh_url : Option String := none
  pano_url : Option String := none
  thumbnail_url : Option String := none
deriving DecidableEq, Repr

/-- Model of `World` (the fields `_build_result` reads). -/
structure World where
  world_id : String
  world_marble_url : String := ""
  assets : Option WorldAssets := none
deriving DecidableEq, Repr

/-- Model of `ViewerData`. -/
structure ViewerData where
  splat_url : String
  collider_url : Option String := none
  panorama_url : Option String := none
deriving DecidableEq, Repr

/-- Model of `ConvertToSceneResult`. -/
structure ConvertToSceneResult where
  viewer_data : ViewerData
  world_id : String
  world_marble_url : String := ""
  thumbnail_url : Option String := none
deriving DecidableEq, Repr

/-- Python `a or b` on optional strings (empty strings are falsy). -/
def orStr (a b : Option String) : Option String :=
  match a with
  | some s => if s = "" then b else some s
  | none => b

/-- The completion handling of one poll iteration: when the operation is
done, fail with the service-reported code/message or a missing-payload error,
or produce the world id; otherwise (`none`) the loop continues. -/
def poll_decide (status : OperationStatus) : Option (Except ConvErr String) :=
  if status.done then
    some (match status.error with
      | some (code, message) =>
        .error (.runtimeRaised
          ("World generation failed: " ++ code ++ " — " ++ message))
      | none =>
        match status.response with
        | none =>
          .error (.runtimeRaised
            "Operation completed but response payload is missing")
        | some world_id => .ok world_id)
  else none

/-- Model of `_poll_operation`: repeatedly read the operation status; on completion
decide via `poll_decide`; when the deadline passes (fuel exhausted) while the
operation is still pending, fail with a timeout. -/
def poll_operation (statuses : ℕ → Except String OperationStatus)
    (operation_id : String) : ℕ → ℕ → Except ConvErr String
  | 0, i =>
    match statuses i with
    | .error msg => .error (.httpRaised msg)
    | .ok status =>
      match poll_decide status with
      | some r => r
      | none =>
        .error (.timeoutRaised
          ("World generation timed out after 600.0s (operation " ++
            operation_id ++ ")"))
  | fuel + 1, i =>
    match statuses i with
    | .error msg => .error (.httpRaised msg)
    | .ok status =>
      match poll_decide status with
      | some r => r
      | none => poll_operation statuses operation_id fuel (i + 1)

/-- Model of `_build_result`: pick the best splat URL (full resolution, then 500k,
then 100k); its absence is a `WorldLabsError`. -/
def build_result (world : World) : Except ConvErr ConvertToSceneResult :=
  let splat_url : Option String :=
    match world.assets with
    | none => none
    | some assets =>
      match assets.splats with
      | none => none
      | some spz => orStr (orStr spz.full_res spz.splat_500k) spz.splat_100k
  if splat_url.getD "" = "" then
    .error (.wlRaised ("World " ++ world.world_id ++ " has no splat download URLs"))
  else
    .ok { viewer_data :=
            { splat_url := splat_url.getD ""
              collider_url :=
                match world.assets with
                | none => none
                | some assets => assets.collider_mesh_url
              panorama_url :=
                match world.assets with
                | none => none
                | some assets => assets.pano_url }
          world_id := world.world_id
          world_marble_url := world.world_marble_url
          thumbnail_url :=
            match world.assets with
            | none => none
            | some assets => assets.thumbnail_url }

/-- The external collaborator outcomes one `convert_to_3d_scene` run sees. -/
structure ConvOutcomes where
  upload : Except String Unit
  submit : Except String String
  statuses : ℕ → Except String OperationStatus
  get_world : String → Except String World

/-- The `try` body of `convert_to_3d_scene`: upload, submit, poll, fetch the
world, build the result. -/
def convert_body (oc : ConvOutcomes) (fuel : ℕ) :
    Except ConvErr ConvertToSceneResult :=
  match oc.upload with
  | .error m => .error (.httpRaised m)
  | .ok _ =>
    match oc.submit with
    | .error m => .error (.httpRaised m)
    | .ok operation_id =>
      match poll_operation oc.statuses operation_id fuel 0 with
      | .error e => .error e
      | .ok world_id =>
        match oc.get_world world_id with
        | .error m => .error (.httpRaised m)
        | .ok world => build_result world

/-- Model of `convert_to_3d_scene`: run the body and wrap every failure into one
`WorldLabsError` — HTTP failures with a prefix, `WorldLabsError`, timeout and
runtime (service-reported) failures with their own message. -/
def convert_to_3d_scene (oc : ConvOutcomes) (fuel : ℕ) :
    Except WorldLabsError ConvertToSceneResult :=
  match convert_body oc fuel with
  | .ok r => .ok r
  | .error (.wlRaised m) => .error ⟨m⟩
  | .error (.httpRaised m) =>
    .error ⟨"HTTP error communicating with World Labs: " ++ m⟩
  | .error (.timeoutRaised m) => .error ⟨m⟩
  | .error (.runtimeRaised m) => .error ⟨m⟩

/-- Model of `DualImageGenResult`. -/
structure DualImageGenResult where
  forward : ImageGenResult := {}
  backward : ImageGenResult := {}
deriving DecidableEq, Repr

/-- Model of `run_pipeline`, with each stage's outcome passed in: stage 1 analyses
(fatal if empty), stage 2 aggregation, stage 3 prompt design, stage 4 image
generation, then — only when requested and an image exists — the key lookup
and 3D conversion, whose failures are caught and degrade the scene result to
`none`. The 3D spatial prompt generator never raises (it falls back to a
default prompt internally). -/
def run_pipeline (username : String) (analyses : List PostAnalysisWithMeta)
    (stage2 : Except String AggregatedProfile)
    (stage3 : Except String Unit)
    (stage4 : Except String DualImageGenResult)
    (run_3d_conversion : Bool)
    (get_key : Except String Unit)
    (convert : Except WorldLabsError ConvertToSceneResult) :
    Except String
      (DualImageGenResult × AggregatedProfile × Option ConvertToSceneResult) :=
  match analyses with
  | [] =>
    .error ("No posts could be analyzed for @" ++ username ++
      ". Check that posts have valid image URLs.")
  | _ :: _ =>
    match stage2 with
    | .error e => .error e
    | .ok profile =>
      match stage3 with
      | .error e => .error e
      | .ok _ =>
        match stage4 with
        | .error e => .error e
        | .ok result =>
          let has_any_image := result.forward.final_image_base64 ≠ "" ∨
            result.backward.final_image_base64 ≠ ""
          let scene_result : Option ConvertToSceneResult :=
            if run_3d_conversion ∧ has_any_image then
              match get_key with
              | .error _ => none
              | .ok _ =>
                match convert with
                | .error _ => none
                | .ok r => some r
            else none
          .ok (result, profile, scene_result)

/-- C8: a failed 3D conversion never fails the pipeline — `run_pipeline` still
returns the 2D result and profile with the scene degraded to `none`; polling
that reports done with an error payload makes the driver fail with the
service-reported code and message, and the 2D result is still returned. -/
theorem C8_3d_failure_degrades
    (username : String) (analyses : List PostAnalysisWithMeta)
    (stage2 : Except String AggregatedProfile) (stage3 : Except String Unit)
    (stage4 : Except String DualImageGenResult) (run_3d_conversion : Bool)
    (get_key : Except String Unit)
    (profile : AggregatedProfile) (result : DualImageGenResult)
    (hne : analyses ≠ []) (h2 : stage2 = .ok profile) (h3 : stage3 = .ok ())
    (h4 : stage4 = .ok result) :
    (∀ e : WorldLabsError,
      run_pipeline username analyses stage2 stage3 stage4 run_3d_conversion
        get_key (.error e) = .ok (result, profile, none)) ∧
    (∀ (statuses : ℕ → Except String OperationStatus) (operation_id : String)
      (fuel : ℕ) (code message : String) (st : OperationStatus),
      statuses 0 = .ok st → st.done = true → st.error = some (code, message) →
      poll_operation statuses operation_id fuel 0 =
        .error (.runtimeRaised
          ("World generation failed: " ++ code ++ " — " ++ message))) ∧
    (∀ (oc : ConvOutcomes) (fuel : ℕ) (operation_id code message : String)
      (st : OperationStatus),
      oc.upload = .ok () → oc.submit = .ok operation_id →
      oc.statuses 0 = .ok st → st.done = true → st.error = some (code, message) →
      convert_to_3d_scene oc fuel =
        .error ⟨"World generation failed: " ++ code ++ " — " ++ message⟩ ∧
      run_pipeline username analyses stage2 stage3 stage4 run_3d_conversion
        get_key (convert_to_3d_scene oc fuel) = .ok (result, profile, none)) := by
  obtain ⟨a, rest, rfl⟩ := List.exists_cons_of_ne_nil hne
  have parta : ∀ e : WorldLabsError,
      run_pipeline username (a :: rest) stage2 stage3 stage4 run_3d_conversion
        get_key (.error e) = .ok (result, profile, none) := by
    intro e
    simp only [run_pipeline, h2, h3, h4]
    split_ifs with h
    · cases get_key <;> rfl
    · rfl
  have partb : ∀ (statuses : ℕ → Except String OperationStatus)
      (operation_id : String) (fuel : ℕ) (code message : String)
      (st : OperationStatus),
      statuses 0 = .ok st → st.done = true → st.error = some (code, message) →
      poll_operation statuses operation_id fuel 0 =
        .error (.runtimeRaised
          ("World generation failed: " ++ code ++ " — " ++ message)) := by
    intro statuses operation_id fuel code message st hst hdone herr
    cases fuel with
    | zero =>
      simp only [poll_operation, hst]
      simp [poll_decide, hdone, herr]
    | succ fuel2 =>
      simp only [poll_operation, hst]
      simp [poll_decide, hdone, herr]
  refine ⟨parta, partb, ?_⟩
  intro oc fuel operation_id code message st hup hsub hst hdone herr
  have hconv : convert_to_3d_scene oc fuel =
      .error ⟨"World generation failed: " ++ code ++ " — " ++ message⟩ := by
    have hbody : convert_body oc fuel =
        .error (.runtimeRaised
          ("World generation failed: " ++ code ++ " — " ++ message)) := by
      simp only [convert_body, hup, hsub,
        partb oc.statuses operation_id fuel code message st hst hdone herr]
    simp [convert_to_3d_scene, hbody]
  refine ⟨hconv, ?_⟩
  rw [hconv]
  exact parta _

/-- Concrete status for the C8 witness: done with a service-reported error. -/
def stC8 : OperationStatus :=
  { done := true, error := some ("FAILED", "bad input") }

/-- Concrete collaborator outcomes for the C8 witness. -/
def ocC8 : ConvOutcomes :=
  { upload := .ok ()
    submit := .ok "op-1"
    statuses := fun _ => .ok stC8
    get_world := fun _ => .error "unused" }

/-- C8 witness: the theorem applied to concrete stage outcomes and the
failing-poll scenario. -/
theorem C8_witness :
    convert_to_3d_scene ocC8 3 =
      .error ⟨"World generation failed: FAILED — bad input"⟩ ∧
    run_pipeline "user1" analysesC5w (.ok {}) (.ok ()) (.ok {}) true (.ok ())
      (convert_to_3d_scene ocC8 3) = .ok ({}, {}, none) :=
  (C8_3d_failure_degrades "user1" analysesC5w (.ok {}) (.ok ()) (.ok {}) true
      (.ok ()) {} {} (by decide) rfl rfl rfl).2.2 ocC8 3 "op-1" "FAILED"
    "bad input" stC8 rfl rfl rfl rfl rfl

end Instaroom
